import Mathlib

/-! Bluetooth vendor interface (`bluetooth/1.0/default/vendor_interface.cc`).

A shallow embedding of the HCI packet framer (`VendorInterface::OnDataReady`),
of the length decoder `HciGetPacketLengthForType`, and of the outbound path
(`Send`, `SendPrivate`, `OnFirmwareConfigured`), followed by theorems about them.

Conventions of the embedding

* a `uint8_t` is a `Fin 256`; a `size_t` is a `Nat` kept below `2 ^ 64` by the
  operations `sizeSub` and `sizeAdd`;
* a `hidl_vec<uint8_t>` is a `List Byte`;
* a pointer that is only ever tested against `nullptr` is a `Bool`
  (`true` = non-null);
* `CHECK(...)` failures end the process: `OnDataReady` returns `StepResult.abort`;
* the result of each `read` / `write` system call is an input of the model.
-/

namespace Bluetooth

/-! ## Constants -/

/-- A `uint8_t`. -/
abbrev Byte := Fin 256

/-- Modelled from the spec: enumerator `HCI_PACKET_TYPE_UNKNOWN` of `HciPacketType`
(declared in `hci_internals.h`, which is not part of the sources at hand); index 0 of the
two tables below. -/
@[simp] def HCI_PACKET_TYPE_UNKNOWN : Nat := 0

/-- Modelled from the spec: enumerator `HCI_PACKET_TYPE_COMMAND`, type octet 1. -/
@[simp] def HCI_PACKET_TYPE_COMMAND : Nat := 1

/-- Modelled from the spec: enumerator `HCI_PACKET_TYPE_ACL_DATA`, type octet 2. -/
@[simp] def HCI_PACKET_TYPE_ACL_DATA : Nat := 2

/-- Modelled from the spec: enumerator `HCI_PACKET_TYPE_SCO_DATA`, type octet 3. -/
@[simp] def HCI_PACKET_TYPE_SCO_DATA : Nat := 3

/-- Modelled from the spec: enumerator `HCI_PACKET_TYPE_EVENT`, type octet 4. -/
@[simp] def HCI_PACKET_TYPE_EVENT : Nat := 4

/-- Modelled from the spec: macro `HCI_COMMAND_PREAMBLE_SIZE` (Command: 3-byte preamble). -/
@[simp] def HCI_COMMAND_PREAMBLE_SIZE : Nat := 3

/-- Modelled from the spec: macro `HCI_ACL_PREAMBLE_SIZE` (ACLData: 4-byte preamble). -/
@[simp] def HCI_ACL_PREAMBLE_SIZE : Nat := 4

/-- Modelled from the spec: macro `HCI_SCO_PREAMBLE_SIZE` (SCOData: 3-byte preamble). -/
@[simp] def HCI_SCO_PREAMBLE_SIZE : Nat := 3

/-- Modelled from the spec: macro `HCI_EVENT_PREAMBLE_SIZE` (Event: 2-byte preamble). -/
@[simp] def HCI_EVENT_PREAMBLE_SIZE : Nat := 2

/-- Modelled from the spec: macro `HCI_PREAMBLE_SIZE_MAX`, the largest preamble size
(that of ACLData). -/
@[simp] def HCI_PREAMBLE_SIZE_MAX : Nat := HCI_ACL_PREAMBLE_SIZE

/-- Modelled from the spec: macro `HCI_LENGTH_OFFSET_CMD` (Command: length at offset 2). -/
@[simp] def HCI_LENGTH_OFFSET_CMD : Nat := 2

/-- Modelled from the spec: macro `HCI_LENGTH_OFFSET_ACL` (ACLData: length at offset 2). -/
@[simp] def HCI_LENGTH_OFFSET_ACL : Nat := 2

/-- Modelled from the spec: macro `HCI_LENGTH_OFFSET_SCO` (SCOData: length at offset 2). -/
@[simp] def HCI_LENGTH_OFFSET_SCO : Nat := 2

/-- Modelled from the spec: macro `HCI_LENGTH_OFFSET_EVT` (Event: length at offset 1). -/
@[simp] def HCI_LENGTH_OFFSET_EVT : Nat := 1

/-- `static const int INVALID_FD = -1;` -/
@[simp] def INVALID_FD : Int := -1

/-- `const size_t preamble_size_for_type[]`, indexed by the packet type. -/
def preamble_size_for_type : List Nat :=
  [0, HCI_COMMAND_PREAMBLE_SIZE, HCI_ACL_PREAMBLE_SIZE, HCI_SCO_PREAMBLE_SIZE,
   HCI_EVENT_PREAMBLE_SIZE]

/-- `const size_t packet_length_offset_for_type[]`, indexed by the packet type. -/
def packet_length_offset_for_type : List Nat :=
  [0, HCI_LENGTH_OFFSET_CMD, HCI_LENGTH_OFFSET_ACL, HCI_LENGTH_OFFSET_SCO,
   HCI_LENGTH_OFFSET_EVT]

/-! ## Buffers and machine arithmetic -/

/-- `a -= b` on `size_t` (wraps modulo `2 ^ 64`). -/
def sizeSub (a b : Nat) : Nat := (a + (2 ^ 64 - b % 2 ^ 64)) % 2 ^ 64

/-- `a += b` on `size_t` (wraps modulo `2 ^ 64`). -/
def sizeAdd (a b : Nat) : Nat := (a + b) % 2 ^ 64

/-- `hidl_vec<uint8_t>::resize(n)` (library code): the first `min n size` elements are
kept, the elements added beyond the old size are taken to be zero. -/
def resize (buf : List Byte) (n : Nat) : List Byte :=
  buf.take n ++ List.replicate (n - buf.length) 0

/-- The effect on a buffer of a `read` that stores `data` from offset `off` on. -/
def writeAt (buf : List Byte) (off : Nat) (data : List Byte) : List Byte :=
  buf.take off ++ data ++ buf.drop (off + data.length)

/-- `HciGetPacketLengthForType(type, packet)`: the payload length announced by a preamble.
`packet[i]` is unchecked indexing; an index beyond the vector reads as 0 here. -/
def HciGetPacketLengthForType (type : Nat) (packet : List Byte) : Nat :=
  let offset := packet_length_offset_for_type.getD type 0
  if type = HCI_PACKET_TYPE_ACL_DATA then
    ((packet.getD (offset + 1) 0).val <<< 8) ||| (packet.getD offset 0).val
  else
    (packet.getD offset 0).val

/-! ## Controller state -/

/-- `enum HciParserState`. -/
inductive HciParserState
  | HCI_IDLE
  | HCI_TYPE_READY
  | HCI_PAYLOAD
deriving DecidableEq

/-- The members of `VendorInterface`, together with the file-level
`internal_command_cb`. -/
structure VendorInterface where
  /-- `void* lib_handle_` is non-null. -/
  lib_handle_ : Bool
  /-- `bt_vendor_interface_t* lib_interface_` is non-null. -/
  lib_interface_ : Bool
  uart_fd_ : Int
  /-- The descriptor watched by `fd_watcher_`, if any. -/
  fd_watcher_ : Option Int
  firmware_configured_ : Bool
  /-- `packet_read_cb_ != nullptr`. -/
  packet_read_cb_ : Bool
  /-- The global `internal_command_cb != nullptr`. -/
  internal_command_cb : Bool
  queued_data_ : List Byte
  hci_parser_state_ : HciParserState
  hci_packet_type_ : Nat
  hci_packet_ : List Byte
  hci_packet_bytes_remaining_ : Nat
  hci_packet_bytes_read_ : Nat
deriving DecidableEq

/-- The header built by `WrapPacketAndCopy`. -/
structure HC_BT_HDR where
  event : Nat
  len : Nat
  offset : Nat
  layer_specific : Nat
  data : List Byte
deriving DecidableEq

/-- `WrapPacketAndCopy(event, data)`. -/
def WrapPacketAndCopy (event : Nat) (data : List Byte) : HC_BT_HDR :=
  { event := event, len := data.length, offset := 0, layer_specific := 0, data := data }

/-- A callback invocation made by `OnDataReady`. -/
inductive Callback
  | packet_read_cb (type : Nat) (packet : List Byte)
  | internal_command_cb (bt_hdr : HC_BT_HDR)
deriving DecidableEq

/-- A packet completed by the framer: the packet type and buffer at the moment
`hci_packet_bytes_remaining_` reached 0 in `HCI_PAYLOAD`, and the callback invocations made
for it. -/
structure Completed where
  type : Nat
  packet : List Byte
  calls : List Callback
deriving DecidableEq

/-- The three `CHECK`s of `OnDataReady`. -/
inductive Fatal
  /-- `CHECK(bytes_read == 1)` in `HCI_IDLE`. -/
  | idle_bytes_read
  /-- `CHECK(hci_packet_type_ >= HCI_PACKET_TYPE_ACL_DATA && hci_packet_type_ <= HCI_PACKET_TYPE_EVENT)`. -/
  | invalid_packet_type
  /-- `CHECK(bytes_read > 0)` in `HCI_TYPE_READY`. -/
  | preamble_bytes_read
deriving DecidableEq

/-- What one `TEMP_FAILURE_RETRY(read(fd, buf, count))` gave: `-1`, or the bytes stored. -/
inductive ReadResult
  | failed
  | bytes (data : List Byte)
deriving DecidableEq

/-- The bytes a read stored in the buffer. -/
def ReadResult.data : ReadResult → List Byte
  | .failed => []
  | .bytes d => d

/-- The return value of the read as assigned to `size_t bytes_read`. -/
def ReadResult.bytes_read : ReadResult → Nat
  | .failed => 2 ^ 64 - 1
  | .bytes d => d.length % 2 ^ 64

/-- The result of one step: the process is aborted, or goes on in a new state having
completed the listed packets. -/
inductive StepResult
  | abort (f : Fatal)
  | next (v : VendorInterface) (out : List Completed)
deriving DecidableEq

/-- The hand-over of the completed packet (the body of
`if (hci_packet_bytes_remaining_ == 0)` in `HCI_PAYLOAD`). -/
def deliver (v : VendorInterface) : List Callback :=
  if v.firmware_configured_ then
    if v.packet_read_cb_ then [Callback.packet_read_cb v.hci_packet_type_ v.hci_packet_]
    else []
  else
    if v.internal_command_cb then
      [Callback.internal_command_cb (WrapPacketAndCopy HCI_PACKET_TYPE_EVENT v.hci_packet_)]
    else []

/-- `VendorInterface::OnDataReady(fd)`, one step of the framer; `r` is what the `read` of
this step returned. -/
def OnDataReady (v : VendorInterface) (r : ReadResult) : StepResult :=
  match v.hci_parser_state_ with
  | .HCI_IDLE =>
    let buffer0 : Byte := r.data.getD 0 0
    let bytes_read := r.bytes_read
    if bytes_read = 1 then
      let type := buffer0.val
      if HCI_PACKET_TYPE_ACL_DATA ≤ type ∧ type ≤ HCI_PACKET_TYPE_EVENT then
        .next { v with
                hci_packet_type_ := type
                hci_parser_state_ := .HCI_TYPE_READY
                hci_packet_ := resize v.hci_packet_ HCI_PREAMBLE_SIZE_MAX
                hci_packet_bytes_remaining_ := preamble_size_for_type.getD type 0
                hci_packet_bytes_read_ := 0 } []
      else .abort .invalid_packet_type
    else .abort .idle_bytes_read
  | .HCI_TYPE_READY =>
    let packet := writeAt v.hci_packet_ v.hci_packet_bytes_read_ r.data
    let bytes_read := r.bytes_read
    if bytes_read > 0 then
      let remaining := sizeSub v.hci_packet_bytes_remaining_ bytes_read
      let read := sizeAdd v.hci_packet_bytes_read_ bytes_read
      if remaining = 0 then
        let packet_length := HciGetPacketLengthForType v.hci_packet_type_ packet
        .next { v with
                hci_packet_ :=
                  resize packet (preamble_size_for_type.getD v.hci_packet_type_ 0 + packet_length)
                hci_packet_bytes_remaining_ := packet_length
                hci_parser_state_ := .HCI_PAYLOAD
                hci_packet_bytes_read_ := 0 } []
      else
        .next { v with
                hci_packet_ := packet
                hci_packet_bytes_remaining_ := remaining
                hci_packet_bytes_read_ := read } []
    else .abort .preamble_bytes_read
  | .HCI_PAYLOAD =>
    let packet := writeAt v.hci_packet_
      (preamble_size_for_type.getD v.hci_packet_type_ 0 + v.hci_packet_bytes_read_) r.data
    let bytes_read := r.bytes_read
    let remaining := sizeSub v.hci_packet_bytes_remaining_ bytes_read
    let read := sizeAdd v.hci_packet_bytes_read_ bytes_read
    let v1 := { v with
                hci_packet_ := packet
                hci_packet_bytes_remaining_ := remaining
                hci_packet_bytes_read_ := read }
    if remaining = 0 then
      .next { v1 with hci_parser_state_ := .HCI_IDLE }
        [{ type := v1.hci_packet_type_, packet := v1.hci_packet_, calls := deliver v1 }]
    else
      .next v1 []

/-! ## Feeding a byte stream to the framer -/

/-- The `count` argument of the `read` that `OnDataReady` issues in state `v`. -/
def readCount (v : VendorInterface) : Nat :=
  match v.hci_parser_state_ with
  | .HCI_IDLE => 1
  | .HCI_TYPE_READY => v.hci_packet_bytes_remaining_
  | .HCI_PAYLOAD => v.hci_packet_bytes_remaining_

/-- The bytes returned by `read(fd, buf, count)` when the descriptor holds `stream` and the
transport hands over `k` bytes at this readiness event (at least one, as the descriptor is
readable): never more than `count`, never more than there are. -/
def readChunk (k count : Nat) (stream : List Byte) : List Byte :=
  stream.take (min (max k 1) count)

/-- The outcome of feeding a stream: the last state, the packets completed in order, the
bytes not read, and the failed `CHECK` if the process was aborted. -/
structure Run where
  vi : VendorInterface
  dispatched : List Completed
  unread : List Byte
  aborted : Option Fatal
deriving DecidableEq

/-- At most `fuel` steps of `OnDataReady`, one per readiness event, as long as the descriptor
has bytes to read. `chunks` lists how many bytes the transport hands over at each event
(1 once the list is used up). -/
def run : Nat → List Nat → List Byte → VendorInterface → Run
  | 0, _, stream, v => { vi := v, dispatched := [], unread := stream, aborted := none }
  | fuel + 1, chunks, stream, v =>
    if stream = [] then { vi := v, dispatched := [], unread := [], aborted := none }
    else
      let d := readChunk (chunks.headD 1) (readCount v) stream
      match OnDataReady v (.bytes d) with
      | .abort f =>
        { vi := v, dispatched := [], unread := stream.drop d.length, aborted := some f }
      | .next v1 out =>
        let r := run fuel chunks.tail (stream.drop d.length) v1
        { r with dispatched := out ++ r.dispatched }

/-- Feeding a whole stream: `OnDataReady` runs until the stream is exhausted (or a `CHECK`
fails). Every step but a zero-length read consumes a byte, and a zero-length read is followed
by one that does, so `2 * length + 1` steps are enough. -/
def feed (chunks : List Nat) (stream : List Byte) (v : VendorInterface) : Run :=
  run (2 * stream.length + 1) chunks stream v

/-- The step made at a readiness event when the next `read` asks for 0 bytes (a zero-length
payload is awaited): that `read` returns 0 and takes nothing from the stream. In every other
state nothing happens before the next byte is read. -/
def pendingStep (v : VendorInterface) : StepResult :=
  if readCount v = 0 then OnDataReady v (.bytes []) else .next v []

/-- The stream delivered one byte per `read`: the reference against which every other
chunking is compared. -/
def bytewise : List Byte → VendorInterface → Run
  | [], v => { vi := v, dispatched := [], unread := [], aborted := none }
  | b :: bs, v =>
    match pendingStep v with
    | .abort f => { vi := v, dispatched := [], unread := b :: bs, aborted := some f }
    | .next v0 out0 =>
      match OnDataReady v0 (.bytes [b]) with
      | .abort f => { vi := v0, dispatched := out0, unread := bs, aborted := some f }
      | .next v1 out1 =>
        let r := bytewise bs v1
        { r with dispatched := out0 ++ out1 ++ r.dispatched }

/-! ## The outbound path -/

/-- What one `write(uart_fd_, buf, count)` does. -/
inductive WriteOutcome
  /-- Some bytes are accepted: `min (max n 1) count` of them. -/
  | accept (n : Nat)
  /-- The call returns 0. -/
  | zero
  /-- The call returns -1 with `errno == EINTR`. -/
  | eintr
  /-- The call returns -1 with `errno == EAGAIN`. -/
  | eagain
  /-- The call returns -1 with another `errno`. -/
  | error
deriving DecidableEq

/-- The UART seen from the writer: the outcomes of the coming `write` calls, in order, and
the bytes accepted so far. A transport whose script is used up accepts whatever is
offered. -/
structure Uart where
  script : List WriteOutcome
  wire : List Byte
deriving DecidableEq

/-- The `while (length > 0)` loop of `SendPrivate`, with `transmitted_length` and `length`
as arguments; returns `transmitted_length` and the transport. Each turn takes the outcome of
one `write(uart_fd_, data + transmitted_length, length)` from the script: `EINTR` is retried
inside `TEMP_FAILURE_RETRY`, `EAGAIN` by `continue`; another error and a return of 0 `break`;
a positive return `ret` is added to `transmitted_length` and taken from `length`. The loop
ends when `length` is 0. A script that is used up stands for a transport that takes all that
is offered in one write. -/
def SendPrivateLoop (data : List Byte) :
    List WriteOutcome → List Byte → Nat → Nat → Nat × Uart
  | script, wire, transmitted_length, 0 =>
    (transmitted_length, { script := script, wire := wire })
  | [], wire, transmitted_length, length + 1 =>
    (transmitted_length + (length + 1),
     { script := [], wire := wire ++ (data.drop transmitted_length).take (length + 1) })
  | .eintr :: rest, wire, transmitted_length, length + 1 =>
    SendPrivateLoop data rest wire transmitted_length (length + 1)
  | .eagain :: rest, wire, transmitted_length, length + 1 =>
    SendPrivateLoop data rest wire transmitted_length (length + 1)
  | .error :: rest, wire, transmitted_length, _ + 1 =>
    (transmitted_length, { script := rest, wire := wire })
  | .zero :: rest, wire, transmitted_length, _ + 1 =>
    (transmitted_length, { script := rest, wire := wire })
  | .accept n :: rest, wire, transmitted_length, length + 1 =>
    let ret := min (max n 1) (length + 1)
    SendPrivateLoop data rest (wire ++ (data.drop transmitted_length).take ret)
      (transmitted_length + ret) (length + 1 - ret)

/-- `VendorInterface::SendPrivate(data, length)`; the pair `(data, length)` is the list
`data`. -/
def SendPrivate (v : VendorInterface) (u : Uart) (data : List Byte) : Nat × Uart :=
  if v.uart_fd_ = INVALID_FD then (0, u)
  else SendPrivateLoop data u.script u.wire 0 data.length

/-- `VendorInterface::Send(data, length)`: the return value, the controller and the
transport afterwards. The pair `(data, length)` is the list `data`; `resize` followed by
`memcpy` at the old end appends `data` to the queue. -/
def Send (v : VendorInterface) (u : Uart) (data : List Byte) :
    Nat × VendorInterface × Uart :=
  if v.firmware_configured_ ∧ v.queued_data_.length = 0 then
    let r := SendPrivate v u data
    (r.1, v, r.2)
  else if ¬ v.firmware_configured_ then
    (data.length, { v with queued_data_ := v.queued_data_ ++ data }, u)
  else
    let r1 := SendPrivate v u v.queued_data_
    let v1 := { v with queued_data_ := resize v.queued_data_ 0 }
    let r2 := SendPrivate v1 r1.2 data
    (r2.1, v1, r2.2)

/-- `VendorInterface::OnFirmwareConfigured(result)`: sets the flag, then calls
`Send(NULL, 0)` on the singleton `VendorInterface::get()`, which is this controller. -/
def OnFirmwareConfigured (v : VendorInterface) (u : Uart) (_result : Nat) :
    VendorInterface × Uart :=
  let v1 := { v with firmware_configured_ := true }
  let r := Send v1 u []
  (r.2.1, r.2.2)

/-- A run of `Send` calls, in order. -/
def SendAll (v : VendorInterface) (u : Uart) : List (List Byte) → VendorInterface × Uart
  | [] => (v, u)
  | d :: ds =>
    let r := Send v u d
    SendAll r.2.1 r.2.2 ds

/-- A freshly opened controller on descriptor `fd`: nothing queued, framer idle, firmware not
configured, no internal command callback registered yet; `cb` tells whether a packet consumer
was given. -/
def opened (fd : Int) (cb : Bool) : VendorInterface :=
  { lib_handle_ := true, lib_interface_ := true, uart_fd_ := fd, fd_watcher_ := some fd,
    firmware_configured_ := false, packet_read_cb_ := cb, internal_command_cb := false,
    queued_data_ := [], hci_parser_state_ := .HCI_IDLE, hci_packet_type_ := 0,
    hci_packet_ := [], hci_packet_bytes_remaining_ := 0, hci_packet_bytes_read_ := 0 }

/-- The outcomes after which `SendPrivate` calls `write` again with the same arguments:
`EINTR` (inside `TEMP_FAILURE_RETRY`) and `EAGAIN` (`continue`). -/
def WriteOutcome.isRetry : WriteOutcome → Bool
  | .eintr => true
  | .eagain => true
  | _ => false

/-- A transport that takes every byte offered, maybe over several writes: no coming `write`
reports an error or returns 0. -/
def Uart.acceptsAll (u : Uart) : Prop :=
  ∀ o ∈ u.script, o ≠ WriteOutcome.error ∧ o ≠ WriteOutcome.zero

instance (u : Uart) : Decidable u.acceptsAll := by
  unfold Uart.acceptsAll
  infer_instance

/-! ## Packets on the wire -/

/-- A packet as it travels on the UART: the type octet, the preamble and the payload. -/
structure Packet where
  type : Byte
  preamble : List Byte
  payload : List Byte
deriving DecidableEq

/-- The bytes of a packet, in the order sent. -/
def Packet.encode (p : Packet) : List Byte :=
  p.type :: (p.preamble ++ p.payload)

/-- The bytes of a sequence of packets. -/
def encodeAll (ps : List Packet) : List Byte :=
  (ps.map Packet.encode).flatten

/-- A valid packet in the sense of the specification: one of the four types, a preamble of
the size of the type, a payload as long as the length field of the preamble says. -/
def Packet.valid (p : Packet) : Prop :=
  (p.type.val = HCI_PACKET_TYPE_COMMAND ∨ p.type.val = HCI_PACKET_TYPE_ACL_DATA ∨
    p.type.val = HCI_PACKET_TYPE_SCO_DATA ∨ p.type.val = HCI_PACKET_TYPE_EVENT) ∧
  p.preamble.length = preamble_size_for_type.getD p.type.val 0 ∧
  p.payload.length = HciGetPacketLengthForType p.type.val p.preamble

instance (p : Packet) : Decidable p.valid := by
  unfold Packet.valid
  infer_instance

/-- A valid packet of one of the three inbound types with a payload of at least one byte. -/
def Packet.inbound (p : Packet) : Prop :=
  p.valid ∧ p.type.val ≠ HCI_PACKET_TYPE_COMMAND ∧ p.payload ≠ []

instance (p : Packet) : Decidable p.inbound := by
  unfold Packet.inbound
  infer_instance

/-- The record of packet `p` completed by a controller whose routing flags are those of
`v0`. -/
def Packet.completed (v0 : VendorInterface) (p : Packet) : Completed :=
  { type := p.type.val
    packet := p.preamble ++ p.payload
    calls := deliver { v0 with hci_packet_type_ := p.type.val
                               hci_packet_ := p.preamble ++ p.payload } }

/-- The controller `v`, with `u` still to read, is somewhere inside packet `p`, whose last
byte is followed by `rest`: the bytes of `p` read so far are in the buffer, the others are at
the head of `u`, and the counters say so. The routing flags are those of `v0`. -/
def Framing (v0 v : VendorInterface) (u : List Byte) (p : Packet) (rest : List Byte) : Prop :=
  v.firmware_configured_ = v0.firmware_configured_ ∧
  v.packet_read_cb_ = v0.packet_read_cb_ ∧
  v.internal_command_cb = v0.internal_command_cb ∧
  match v.hci_parser_state_ with
  | .HCI_IDLE => u = p.encode ++ rest
  | .HCI_TYPE_READY =>
    v.hci_packet_type_ = p.type.val ∧
    v.hci_packet_.length = HCI_PREAMBLE_SIZE_MAX ∧
    1 ≤ v.hci_packet_bytes_remaining_ ∧
    v.hci_packet_bytes_read_ + v.hci_packet_bytes_remaining_ = p.preamble.length ∧
    v.hci_packet_.take v.hci_packet_bytes_read_ = p.preamble.take v.hci_packet_bytes_read_ ∧
    u = p.preamble.drop v.hci_packet_bytes_read_ ++ p.payload ++ rest
  | .HCI_PAYLOAD =>
    v.hci_packet_type_ = p.type.val ∧
    v.hci_packet_.length = p.preamble.length + p.payload.length ∧
    1 ≤ v.hci_packet_bytes_remaining_ ∧
    v.hci_packet_bytes_read_ + v.hci_packet_bytes_remaining_ = p.payload.length ∧
    v.hci_packet_.take (p.preamble.length + v.hci_packet_bytes_read_)
      = p.preamble ++ p.payload.take v.hci_packet_bytes_read_ ∧
    u = p.payload.drop v.hci_packet_bytes_read_ ++ rest

/-- The size_t counters of the framer are not about to wrap: the framer is idle (the
counters are reset by the next step), or `bytes_read + bytes_remaining` is below `2 ^ 64`. -/
def CountersInRange (v : VendorInterface) : Prop :=
  v.hci_parser_state_ = .HCI_IDLE ∨
    v.hci_packet_bytes_read_ + v.hci_packet_bytes_remaining_ < 2 ^ 64

instance (v : VendorInterface) : Decidable (CountersInRange v) := by
  unfold CountersInRange
  infer_instance

/-! ## Open and Close -/

/-- Argument of `BT_VND_OP_POWER_CTRL`. -/
inductive PowerState
  | BT_VND_PWR_OFF
  | BT_VND_PWR_ON
deriving DecidableEq

/-- The calls that `Open` and `Close` make on the vendor library: `init`, the four `op`
requests, and `dlclose` of the library handle. -/
inductive DriverCall
  /-- `lib_interface_->init(&lib_callbacks, local_bda)`. -/
  | init
  /-- `lib_interface_->op(BT_VND_OP_POWER_CTRL, &power_state)`. -/
  | BT_VND_OP_POWER_CTRL (power_state : PowerState)
  /-- `lib_interface_->op(BT_VND_OP_USERIAL_OPEN, &fd_list)`. -/
  | BT_VND_OP_USERIAL_OPEN
  /-- `lib_interface_->op(BT_VND_OP_USERIAL_CLOSE, nullptr)`. -/
  | BT_VND_OP_USERIAL_CLOSE
  /-- `lib_interface_->op(BT_VND_OP_FW_CFG, nullptr)`. -/
  | BT_VND_OP_FW_CFG
  /-- `dlclose(lib_handle_)`. -/
  | dlclose
deriving DecidableEq

/-- What the environment answers during `Open`. -/
structure OpenEnv where
  /-- `dlopen` returned a non-null handle. -/
  dlopen_found : Bool
  /-- `dlsym` returned a non-null address. -/
  dlsym_found : Bool
  /-- `BluetoothAddress::get_local_address` succeeded. -/
  local_address : Bool
  /-- The status returned by `init`. -/
  init_status : Int
  /-- The count returned by `op(BT_VND_OP_USERIAL_OPEN, &fd_list)`. -/
  fd_count : Int
  /-- `fd_list[0]` after that call. -/
  fd0 : Int
deriving DecidableEq

/-- The result of `Open`: the process is ended by `CHECK(get_local_address(..))`, or `Open`
returns a boolean, leaving the controller in a state and having made the listed calls. -/
inductive OpenResult
  | abort
  | returned (ok : Bool) (v : VendorInterface) (calls : List DriverCall)
deriving DecidableEq

/-- `VendorInterface::Open(packet_read_cb)`; `cb` tells whether `packet_read_cb` is
non-null. The members that `Open` does not assign keep the value they had. -/
def Open (v : VendorInterface) (cb : Bool) (env : OpenEnv) : OpenResult :=
  let v := { v with firmware_configured_ := false, packet_read_cb_ := cb }
  let v := { v with lib_handle_ := env.dlopen_found }
  if ¬ v.lib_handle_ then .returned false v []
  else
    let v := { v with lib_interface_ := env.dlsym_found }
    if ¬ v.lib_interface_ then .returned false v []
    else if ¬ env.local_address then .abort
    else
      let status := env.init_status
      if status ≠ 0 then .returned false v [.init]
      else
        let fd_count := env.fd_count
        if fd_count ≠ 1 then
          .returned false v
            [.init, .BT_VND_OP_POWER_CTRL .BT_VND_PWR_OFF, .BT_VND_OP_POWER_CTRL .BT_VND_PWR_ON,
             .BT_VND_OP_USERIAL_OPEN]
        else
          let v := { v with uart_fd_ := env.fd0 }
          if v.uart_fd_ = INVALID_FD then
            .returned false v
              [.init, .BT_VND_OP_POWER_CTRL .BT_VND_PWR_OFF,
               .BT_VND_OP_POWER_CTRL .BT_VND_PWR_ON, .BT_VND_OP_USERIAL_OPEN]
          else
            .returned true { v with fd_watcher_ := some v.uart_fd_ }
              [.init, .BT_VND_OP_POWER_CTRL .BT_VND_PWR_OFF,
               .BT_VND_OP_POWER_CTRL .BT_VND_PWR_ON, .BT_VND_OP_USERIAL_OPEN,
               .BT_VND_OP_FW_CFG]

/-- The four failure cases of `Open`: the driver library is missing; the library is there
and the entry symbol is missing; both are there and `init` returns a non-zero status; `init`
returns 0 and the count of descriptors is not 1. -/
def OpenEnv.fails (env : OpenEnv) : Prop :=
  env.dlopen_found = false ∨
  (env.dlopen_found = true ∧ env.dlsym_found = false) ∨
  (env.dlopen_found = true ∧ env.dlsym_found = true ∧ env.local_address = true ∧
    env.init_status ≠ 0) ∨
  (env.dlopen_found = true ∧ env.dlsym_found = true ∧ env.local_address = true ∧
    env.init_status = 0 ∧ env.fd_count ≠ 1)

instance (env : OpenEnv) : Decidable env.fails := by
  unfold OpenEnv.fails
  infer_instance

/-- `VendorInterface::Close()`: the controller afterwards and the calls made on the vendor
library, in order. -/
def Close (v : VendorInterface) : VendorInterface × List DriverCall :=
  let v := { v with fd_watcher_ := none }
  let r1 : VendorInterface × List DriverCall :=
    if v.lib_interface_ then
      ({ v with uart_fd_ := INVALID_FD },
       [.BT_VND_OP_USERIAL_CLOSE, .BT_VND_OP_POWER_CTRL .BT_VND_PWR_OFF])
    else (v, [])
  let r2 : VendorInterface × List DriverCall :=
    if r1.1.lib_handle_ then ({ r1.1 with lib_handle_ := false }, r1.2 ++ [.dlclose])
    else r1
  ({ r2.1 with firmware_configured_ := false }, r2.2)

/-- A controller object on which `Open` has not run: no library, no descriptor, nothing
watched. -/
def unopened : VendorInterface :=
  { lib_handle_ := false, lib_interface_ := false, uart_fd_ := INVALID_FD, fd_watcher_ := none,
    firmware_configured_ := false, packet_read_cb_ := false, internal_command_cb := false,
    queued_data_ := [], hci_parser_state_ := .HCI_IDLE, hci_packet_type_ := 0,
    hci_packet_ := [], hci_packet_bytes_remaining_ := 0, hci_packet_bytes_read_ := 0 }

/-! ## Operations on a controller -/

/-- The operations that touch the command queue or the framer after `Open`. -/
inductive Operation
  | Send (data : List Byte)
  | OnFirmwareConfigured (result : Nat)
  | OnDataReady (r : ReadResult)
  | Close
deriving DecidableEq

/-- One operation on a controller and its UART; `none` when a `CHECK` ends the process. -/
def perform (op : Operation) (s : VendorInterface × Uart) : Option (VendorInterface × Uart) :=
  match op with
  | .Send data => some ((Send s.1 s.2 data).2.1, (Send s.1 s.2 data).2.2)
  | .OnFirmwareConfigured result => some (OnFirmwareConfigured s.1 s.2 result)
  | .OnDataReady r =>
    match OnDataReady s.1 r with
    | .abort _ => none
    | .next v _ => some (v, s.2)
  | .Close => some ((Close s.1).1, s.2)

/-- A sequence of operations, in order; `none` when a `CHECK` ended the process on the way. -/
def performAll : List Operation → VendorInterface × Uart → Option (VendorInterface × Uart)
  | [], s => some s
  | op :: ops, s =>
    match perform op s with
    | none => none
    | some s1 => performAll ops s1

/-! ## The framer invariant -/

/-- The width in bytes of the length field of a packet type. -/
def lengthFieldWidth (type : Nat) : Nat :=
  if type = HCI_PACKET_TYPE_ACL_DATA then 2 else 1

/-- The offset in `hci_packet_` at which the `read` of `OnDataReady` stores its bytes (the
pointer argument of `read`; in `HCI_IDLE` the bytes go to a local buffer). -/
def writeOffset (v : VendorInterface) : Nat :=
  match v.hci_parser_state_ with
  | .HCI_IDLE => 0
  | .HCI_TYPE_READY => v.hci_packet_bytes_read_
  | .HCI_PAYLOAD => preamble_size_for_type.getD v.hci_packet_type_ 0 + v.hci_packet_bytes_read_

/-- The framer invariant. In `HCI_TYPE_READY`: the type is an accepted one, the two counters
add up to the preamble size of the type, at least one byte remains, the buffer has the
maximal preamble size. In `HCI_PAYLOAD`: the type is an accepted one, the two counters add up
to the payload length declared by the preamble held in the buffer, and the buffer has the
preamble size plus that length. -/
def FramerInv (v : VendorInterface) : Prop :=
  match v.hci_parser_state_ with
  | .HCI_IDLE => True
  | .HCI_TYPE_READY =>
    (HCI_PACKET_TYPE_ACL_DATA ≤ v.hci_packet_type_ ∧ v.hci_packet_type_ ≤ HCI_PACKET_TYPE_EVENT) ∧
    v.hci_packet_bytes_read_ + v.hci_packet_bytes_remaining_
      = preamble_size_for_type.getD v.hci_packet_type_ 0 ∧
    1 ≤ v.hci_packet_bytes_remaining_ ∧
    v.hci_packet_.length = HCI_PREAMBLE_SIZE_MAX
  | .HCI_PAYLOAD =>
    (HCI_PACKET_TYPE_ACL_DATA ≤ v.hci_packet_type_ ∧ v.hci_packet_type_ ≤ HCI_PACKET_TYPE_EVENT) ∧
    v.hci_packet_bytes_read_ + v.hci_packet_bytes_remaining_
      = HciGetPacketLengthForType v.hci_packet_type_ v.hci_packet_ ∧
    v.hci_packet_.length = preamble_size_for_type.getD v.hci_packet_type_ 0
      + HciGetPacketLengthForType v.hci_packet_type_ v.hci_packet_

instance (v : VendorInterface) : Decidable (FramerInv v) := by
  unfold FramerInv
  cases v.hci_parser_state_ <;> infer_instance

/-! ## A few concrete controllers -/

/-- A controller in `HCI_PAYLOAD` that waits for the last payload byte of an Event packet
`0E 01 ..`, with firmware not configured and no internal command callback registered. -/
def awaitingLastByte : VendorInterface :=
  { opened 3 true with
    hci_parser_state_ := .HCI_PAYLOAD, hci_packet_type_ := HCI_PACKET_TYPE_EVENT,
    hci_packet_ := [0x0E, 0x01, 0x00], hci_packet_bytes_remaining_ := 1,
    hci_packet_bytes_read_ := 0 }

/-- The Event packet `04 0E 02 AA BB`. -/
def eventAABB : Packet :=
  { type := 0x04, preamble := [0x0E, 0x02], payload := [0xAA, 0xBB] }

/-- A Command packet `01 03 0C 01 AA`: a preamble of 3 bytes whose length field is 1, and one
payload byte. -/
def commandAA : Packet :=
  { type := 0x01, preamble := [0x03, 0x0C, 0x01], payload := [0xAA] }

/-- The ACL packet `02 01 00 01 00 55`: handle 1, length 1, one payload byte. -/
def aclPacket55 : Packet :=
  { type := 0x02, preamble := [0x01, 0x00, 0x01, 0x00], payload := [0x55] }

/-- The Event packet `04 0E 00`, with an empty payload. -/
def eventEmpty : Packet :=
  { type := 0x04, preamble := [0x0E, 0x00], payload := [] }

/-- A controller whose descriptor is invalid: the library is loaded and `uart_fd_` is
`INVALID_FD`, the state in which `Open` leaves a new controller when the driver hands back
`INVALID_FD` as its only descriptor (`Initialize` keeps the object after a failed `Open`). -/
def closedDescriptor : VendorInterface :=
  { opened 3 true with uart_fd_ := INVALID_FD, fd_watcher_ := none }

/-! ## Theorems -/

/-- C3, as the claim states it, fails: the type octet 1 (Command) is rejected in
`HCI_IDLE` by the packet-type `CHECK`. -/
theorem idle_rejects_command :
    OnDataReady (opened 3 true) (.bytes [1]) = .abort .invalid_packet_type := by
  decide

/-- C3, amended: in `HCI_IDLE` a step that reads the octet `b` goes on (to
`HCI_TYPE_READY`, with the type recorded, a buffer of the maximal preamble size, the
preamble size of the type still to read, nothing dispatched) if and only if `b` is ACLData (2),
SCOData (3) or Event (4); for every other octet, Command (1) included, the step is
aborted by the packet-type `CHECK`. -/
theorem idle_accepts_iff (v : VendorInterface) (b : Byte)
    (hidle : v.hci_parser_state_ = .HCI_IDLE) :
    ((∃ v1 out, OnDataReady v (.bytes [b]) = .next v1 out) ↔
        (b.val = HCI_PACKET_TYPE_ACL_DATA ∨ b.val = HCI_PACKET_TYPE_SCO_DATA ∨
          b.val = HCI_PACKET_TYPE_EVENT)) ∧
    (∀ v1 out, OnDataReady v (.bytes [b]) = .next v1 out →
        out = [] ∧ v1.hci_parser_state_ = .HCI_TYPE_READY ∧ v1.hci_packet_type_ = b.val ∧
        v1.hci_packet_.length = HCI_PREAMBLE_SIZE_MAX ∧
        v1.hci_packet_bytes_remaining_ = preamble_size_for_type.getD b.val 0 ∧
        v1.hci_packet_bytes_read_ = 0) ∧
    (¬ (b.val = HCI_PACKET_TYPE_ACL_DATA ∨ b.val = HCI_PACKET_TYPE_SCO_DATA ∨
          b.val = HCI_PACKET_TYPE_EVENT) →
        OnDataReady v (.bytes [b]) = .abort .invalid_packet_type) := by
  have hrange : (2 ≤ b.val ∧ b.val ≤ 4) ↔ (b.val = 2 ∨ b.val = 3 ∨ b.val = 4) := by omega
  simp only [HCI_PACKET_TYPE_ACL_DATA, HCI_PACKET_TYPE_SCO_DATA, HCI_PACKET_TYPE_EVENT]
  by_cases hb : 2 ≤ b.val ∧ b.val ≤ 4
  · have hstep : OnDataReady v (.bytes [b]) = .next { v with
          hci_packet_type_ := b.val
          hci_parser_state_ := .HCI_TYPE_READY
          hci_packet_ := resize v.hci_packet_ HCI_PREAMBLE_SIZE_MAX
          hci_packet_bytes_remaining_ := preamble_size_for_type.getD b.val 0
          hci_packet_bytes_read_ := 0 } [] := by
      simp [OnDataReady, hidle, ReadResult.bytes_read, ReadResult.data, hb]
    rw [hstep]
    refine ⟨⟨fun _ => hrange.mp hb, fun _ => ⟨_, _, rfl⟩⟩, ?_, fun h => absurd (hrange.mp hb) h⟩
    intro v1 out h
    injection h with h1 h2
    subst h1 h2
    simp [resize]
    omega
  · have hstep : OnDataReady v (.bytes [b]) = .abort .invalid_packet_type := by
      simp [OnDataReady, hidle, ReadResult.bytes_read, ReadResult.data, hb]
    rw [hstep]
    refine ⟨⟨fun h => ?_, fun h => absurd (hrange.mpr h) hb⟩, ?_, fun _ => rfl⟩
    · obtain ⟨v1, out, h⟩ := h
      cases h
    · intro v1 out h
      cases h

/-- Witness of `idle_accepts_iff`: the idle controller and the octet 4 (Event). -/
theorem idle_accepts_iff_witness :
    (opened 3 true).hci_parser_state_ = .HCI_IDLE ∧
    (∃ v1 out, OnDataReady (opened 3 true) (.bytes [4]) = .next v1 out) :=
  ⟨rfl, ((idle_accepts_iff (opened 3 true) 4 rfl).1).mpr (by decide)⟩

/-- The 16-bit length field: `(hi << 8) | lo` is `lo + 256 * hi`, below `2 ^ 16`. -/
theorem shift_or_eq (hi lo : Byte) :
    (hi.val <<< 8) ||| lo.val = lo.val + 256 * hi.val ∧ (hi.val <<< 8) ||| lo.val ≤ 65535 := by
  have h1 : hi.val <<< 8 = 2 ^ 8 * hi.val := by rw [Nat.shiftLeft_eq, Nat.mul_comm]
  have h2 : 2 ^ 8 * hi.val ||| lo.val = 2 ^ 8 * hi.val + lo.val :=
    (Nat.mul_add_lt_is_or (by simp) hi.val).symm
  have h3 := hi.isLt
  have h4 := lo.isLt
  rw [h1, h2]
  omega

/-- C4: for ACLData the payload length is `lowByte | (highByte << 8)` with `lowByte` at the
length offset of the type and `highByte` at the next offset (that is `lowByte + 256 * highByte`,
at most 65535); for every other packet type it is the single byte at the length offset of
the type (at most 255). -/
theorem HciGetPacketLengthForType_spec (packet : List Byte) :
    (HciGetPacketLengthForType HCI_PACKET_TYPE_ACL_DATA packet
        = (packet.getD (packet_length_offset_for_type.getD HCI_PACKET_TYPE_ACL_DATA 0) 0).val |||
          ((packet.getD (packet_length_offset_for_type.getD HCI_PACKET_TYPE_ACL_DATA 0 + 1) 0).val
            <<< 8) ∧
      HciGetPacketLengthForType HCI_PACKET_TYPE_ACL_DATA packet
        = (packet.getD HCI_LENGTH_OFFSET_ACL 0).val
          + 256 * (packet.getD (HCI_LENGTH_OFFSET_ACL + 1) 0).val ∧
      HciGetPacketLengthForType HCI_PACKET_TYPE_ACL_DATA packet ≤ 65535) ∧
    (∀ type, type ≠ HCI_PACKET_TYPE_ACL_DATA →
      HciGetPacketLengthForType type packet
        = (packet.getD (packet_length_offset_for_type.getD type 0) 0).val ∧
      HciGetPacketLengthForType type packet ≤ 255) ∧
    HciGetPacketLengthForType HCI_PACKET_TYPE_COMMAND packet
      = (packet.getD HCI_LENGTH_OFFSET_CMD 0).val ∧
    HciGetPacketLengthForType HCI_PACKET_TYPE_SCO_DATA packet
      = (packet.getD HCI_LENGTH_OFFSET_SCO 0).val ∧
    HciGetPacketLengthForType HCI_PACKET_TYPE_EVENT packet
      = (packet.getD HCI_LENGTH_OFFSET_EVT 0).val := by
  refine ⟨⟨?_, ?_, ?_⟩, ?_, ?_, ?_, ?_⟩
  · simp only [HciGetPacketLengthForType, if_true]
    exact Nat.lor_comm _ _
  · have h := (shift_or_eq (packet.getD 3 0) (packet.getD 2 0)).1
    simp only [HciGetPacketLengthForType, packet_length_offset_for_type, if_true]
    exact h
  · have h := (shift_or_eq (packet.getD 3 0) (packet.getD 2 0)).2
    simp only [HciGetPacketLengthForType, packet_length_offset_for_type, if_true]
    exact h
  · intro type htype
    have hlt := (packet.getD (packet_length_offset_for_type.getD type 0) 0).isLt
    simp only [HciGetPacketLengthForType, if_neg htype, true_and]
    omega
  · simp [HciGetPacketLengthForType, packet_length_offset_for_type]
  · simp [HciGetPacketLengthForType, packet_length_offset_for_type]
  · simp [HciGetPacketLengthForType, packet_length_offset_for_type]

/-- Witness of `HciGetPacketLengthForType_spec`: the Event preamble `0E 02` announces 2 payload
bytes, the ACL preamble `01 00 02 01` announces `0x0102` = 258. -/
theorem HciGetPacketLengthForType_spec_witness :
    HCI_PACKET_TYPE_EVENT ≠ HCI_PACKET_TYPE_ACL_DATA ∧
    HciGetPacketLengthForType HCI_PACKET_TYPE_EVENT [0x0E, 0x02] = 2 ∧
    HciGetPacketLengthForType HCI_PACKET_TYPE_ACL_DATA [0x01, 0x00, 0x02, 0x01] = 258 :=
  ⟨by decide,
   ((HciGetPacketLengthForType_spec [0x0E, 0x02]).2.1 HCI_PACKET_TYPE_EVENT (by decide)).1.trans
     (by decide),
   (HciGetPacketLengthForType_spec [0x01, 0x00, 0x02, 0x01]).1.2.1.trans (by decide)⟩

/-- C5, evaluated on the code: the Event packet `04 0E 00` (length field 0), one byte per
step. The third step reads the last preamble byte and leaves the framer in `HCI_PAYLOAD` with
nothing to read and nothing dispatched; the stream is exhausted, so no further step follows.
Only a fourth readiness event, here caused by the first byte of a following packet, completes
the zero-length packet. -/
theorem zero_length_packet_not_completed :
    (feed [] [0x04, 0x0E, 0x00] (opened 3 true)).dispatched = [] ∧
    (feed [] [0x04, 0x0E, 0x00] (opened 3 true)).vi.hci_parser_state_ = .HCI_PAYLOAD ∧
    (feed [] [0x04, 0x0E, 0x00] (opened 3 true)).vi.hci_packet_bytes_remaining_ = 0 ∧
    (feed [] [0x04, 0x0E, 0x00] (opened 3 true)).unread = [] ∧
    (feed [] [0x04, 0x0E, 0x00] (opened 3 true)).aborted = none ∧
    (run 3 [] [0x04, 0x0E, 0x00, 0x04] (opened 3 true)).dispatched = [] ∧
    (run 4 [] [0x04, 0x0E, 0x00, 0x04] (opened 3 true)).dispatched.length = 1 ∧
    (run 4 [] [0x04, 0x0E, 0x00, 0x04] (opened 3 true)).unread = [0x04] := by
  decide

/-- The `!firmware_configured_` branch of `Send`: the data is appended to the queue and its
length returned; the transport is not touched. -/
theorem Send_queues (v : VendorInterface) (u : Uart) (data : List Byte)
    (hcfg : v.firmware_configured_ = false) :
    Send v u data = (data.length, { v with queued_data_ := v.queued_data_ ++ data }, u) := by
  simp [Send, hcfg]

/-- C6: while firmware is not configured, `Send(D)` returns the length of `D`, leaves the
transport untouched (no write is made, nothing reaches the wire), leaves the
firmware-configured flag unchanged, and leaves the queue equal to its former content followed
by `D`. -/
theorem Send_unconfigured (v : VendorInterface) (u : Uart) (data : List Byte)
    (hcfg : v.firmware_configured_ = false) :
    (Send v u data).1 = data.length ∧
    (Send v u data).2.2 = u ∧
    (Send v u data).2.1.firmware_configured_ = v.firmware_configured_ ∧
    (Send v u data).2.1.queued_data_ = v.queued_data_ ++ data ∧
    (Send v u data).2.1 = { v with queued_data_ := v.queued_data_ ++ data } := by
  simp [Send, hcfg]

/-- Witness of `Send_unconfigured`: `Send([01, 02, 03])` on an empty queue returns 3,
transmits nothing and leaves the queue `[01, 02, 03]`. -/
theorem Send_unconfigured_witness :
    (opened 3 true).firmware_configured_ = false ∧
    (Send (opened 3 true) { script := [], wire := [] } [0x01, 0x02, 0x03]).1 = 3 ∧
    (Send (opened 3 true) { script := [], wire := [] } [0x01, 0x02, 0x03]).2.2
      = { script := [], wire := [] } ∧
    (Send (opened 3 true) { script := [], wire := [] } [0x01, 0x02, 0x03]).2.1.queued_data_
      = [0x01, 0x02, 0x03] :=
  have h := Send_unconfigured (opened 3 true) { script := [], wire := [] } [0x01, 0x02, 0x03] rfl
  ⟨rfl, h.1, h.2.1, h.2.2.2.1⟩

/-- C9, as the claim states it, fails: with firmware not configured and no internal command
callback registered, the step that completes a packet hands it to no callback at all (and
likewise with firmware configured and no packet consumer). -/
theorem completed_packet_not_handed_over :
    OnDataReady awaitingLastByte (.bytes [0xAA])
      = .next { awaitingLastByte with
                hci_parser_state_ := .HCI_IDLE, hci_packet_ := [0x0E, 0x01, 0xAA],
                hci_packet_bytes_remaining_ := 0, hci_packet_bytes_read_ := 1 }
          [{ type := HCI_PACKET_TYPE_EVENT, packet := [0x0E, 0x01, 0xAA], calls := [] }] ∧
    OnDataReady { awaitingLastByte with firmware_configured_ := true, packet_read_cb_ := false }
        (.bytes [0xAA])
      = .next { awaitingLastByte with
                firmware_configured_ := true, packet_read_cb_ := false,
                hci_parser_state_ := .HCI_IDLE, hci_packet_ := [0x0E, 0x01, 0xAA],
                hci_packet_bytes_remaining_ := 0, hci_packet_bytes_read_ := 1 }
          [{ type := HCI_PACKET_TYPE_EVENT, packet := [0x0E, 0x01, 0xAA], calls := [] }] := by
  decide

/-- C9, amended: a step in `HCI_PAYLOAD` whose read brings `hci_packet_bytes_remaining_` to 0
completes exactly one packet and returns the framer to `HCI_IDLE`. With firmware not
configured and an internal command callback registered, the packet is handed to that callback
once (wrapped with event `HCI_PACKET_TYPE_EVENT`) and not to the packet consumer; with
firmware configured and a packet consumer registered, it is handed to the consumer once, with
its type and bytes, and not to the internal callback; when the callback of the current mode
is not registered, no callback is invoked. -/
theorem completed_packet_routing (v : VendorInterface) (r : ReadResult)
    (hst : v.hci_parser_state_ = .HCI_PAYLOAD)
    (hdone : sizeSub v.hci_packet_bytes_remaining_ r.bytes_read = 0) :
    ∃ v1 c, OnDataReady v r = .next v1 [c] ∧
      v1.hci_parser_state_ = .HCI_IDLE ∧
      c.type = v.hci_packet_type_ ∧
      c.packet = writeAt v.hci_packet_
        (preamble_size_for_type.getD v.hci_packet_type_ 0 + v.hci_packet_bytes_read_) r.data ∧
      v1.hci_packet_ = c.packet ∧
      (v.firmware_configured_ = false → v.internal_command_cb = true →
        c.calls = [Callback.internal_command_cb
          (WrapPacketAndCopy HCI_PACKET_TYPE_EVENT c.packet)]) ∧
      (v.firmware_configured_ = true → v.packet_read_cb_ = true →
        c.calls = [Callback.packet_read_cb c.type c.packet]) ∧
      (v.firmware_configured_ = false → v.internal_command_cb = false → c.calls = []) ∧
      (v.firmware_configured_ = true → v.packet_read_cb_ = false → c.calls = []) := by
  have hstep : OnDataReady v r = .next
      { v with
        hci_packet_ := writeAt v.hci_packet_
          (preamble_size_for_type.getD v.hci_packet_type_ 0 + v.hci_packet_bytes_read_) r.data
        hci_packet_bytes_remaining_ := 0
        hci_packet_bytes_read_ := sizeAdd v.hci_packet_bytes_read_ r.bytes_read
        hci_parser_state_ := .HCI_IDLE }
      [{ type := v.hci_packet_type_
         packet := writeAt v.hci_packet_
          (preamble_size_for_type.getD v.hci_packet_type_ 0 + v.hci_packet_bytes_read_) r.data
         calls := deliver { v with
            hci_packet_ := writeAt v.hci_packet_
              (preamble_size_for_type.getD v.hci_packet_type_ 0 + v.hci_packet_bytes_read_) r.data
            hci_packet_bytes_remaining_ := 0
            hci_packet_bytes_read_ := sizeAdd v.hci_packet_bytes_read_ r.bytes_read } }] := by
    simp only [OnDataReady, hst, hdone, if_true]
  refine ⟨_, _, hstep, rfl, rfl, rfl, rfl, ?_, ?_, ?_, ?_⟩ <;> intro h1 h2 <;>
    simp [deliver, h1, h2]

/-- Witness of `completed_packet_routing`: the last payload byte of an Event packet arrives
while firmware is configured and a packet consumer is registered. -/
theorem completed_packet_routing_witness :
    ∃ v1 c, OnDataReady { awaitingLastByte with firmware_configured_ := true } (.bytes [0xAA])
        = .next v1 [c] ∧
      v1.hci_parser_state_ = .HCI_IDLE ∧
      c.calls = [Callback.packet_read_cb HCI_PACKET_TYPE_EVENT [0x0E, 0x01, 0xAA]] := by
  obtain ⟨v1, c, h1, h2, h3, h4, _, _, h6, _⟩ :=
    completed_packet_routing { awaitingLastByte with firmware_configured_ := true }
      (.bytes [0xAA]) rfl (by decide)
  refine ⟨v1, c, h1, h2, ?_⟩
  rw [h6 rfl rfl, h3, h4]
  decide

/-- The write loop: the count returned lies between the count at entry and the total asked
for, the wire grows by exactly the bytes of `data` between the two counts, the outcomes used
are an initial segment of the script, and the loop stops short only after a write that
reported an error or returned 0. -/
theorem SendPrivateLoop_spec (data : List Byte) :
    ∀ (script : List WriteOutcome) (wire : List Byte) (t len : Nat),
      t ≤ (SendPrivateLoop data script wire t len).1 ∧
      (SendPrivateLoop data script wire t len).1 ≤ t + len ∧
      (SendPrivateLoop data script wire t len).2.wire
        = wire ++ (data.drop t).take ((SendPrivateLoop data script wire t len).1 - t) ∧
      ∃ used, script = used ++ (SendPrivateLoop data script wire t len).2.script ∧
        ((SendPrivateLoop data script wire t len).1 < t + len →
          ∃ before o, used = before ++ [o] ∧
            (o = WriteOutcome.error ∨ o = WriteOutcome.zero)) := by
  intro script
  induction script with
  | nil =>
    intro wire t len
    cases len with
    | zero => simp [SendPrivateLoop]
    | succ n => simp [SendPrivateLoop]
  | cons o rest ih =>
    intro wire t len
    cases len with
    | zero =>
      simp only [SendPrivateLoop]
      exact ⟨le_refl _, le_refl _, by simp, [], by simp⟩
    | succ n =>
      cases o with
      | eintr =>
        simp only [SendPrivateLoop]
        obtain ⟨h1, h2, h3, used, h4, h5⟩ := ih wire t (n + 1)
        refine ⟨h1, h2, h3, WriteOutcome.eintr :: used, by rw [List.cons_append, ← h4], ?_⟩
        intro hlt
        obtain ⟨before, o, hb, ho⟩ := h5 hlt
        exact ⟨WriteOutcome.eintr :: before, o, by rw [hb, List.cons_append], ho⟩
      | eagain =>
        simp only [SendPrivateLoop]
        obtain ⟨h1, h2, h3, used, h4, h5⟩ := ih wire t (n + 1)
        refine ⟨h1, h2, h3, WriteOutcome.eagain :: used, by rw [List.cons_append, ← h4], ?_⟩
        intro hlt
        obtain ⟨before, o, hb, ho⟩ := h5 hlt
        exact ⟨WriteOutcome.eagain :: before, o, by rw [hb, List.cons_append], ho⟩
      | error =>
        simp only [SendPrivateLoop]
        refine ⟨le_refl _, by omega, by simp, [WriteOutcome.error], by simp, ?_⟩
        intro _
        exact ⟨[], WriteOutcome.error, by simp, Or.inl rfl⟩
      | zero =>
        simp only [SendPrivateLoop]
        refine ⟨le_refl _, by omega, by simp, [WriteOutcome.zero], by simp, ?_⟩
        intro _
        exact ⟨[], WriteOutcome.zero, by simp, Or.inr rfl⟩
      | accept k =>
        simp only [SendPrivateLoop]
        have hret1 : 1 ≤ min (max k 1) (n + 1) := by omega
        have hret2 : min (max k 1) (n + 1) ≤ n + 1 := by omega
        generalize min (max k 1) (n + 1) = ret at hret1 hret2
        obtain ⟨h1, h2, h3, used, h4, h5⟩ :=
          ih (wire ++ (data.drop t).take ret) (t + ret) (n + 1 - ret)
        generalize SendPrivateLoop data rest (wire ++ (data.drop t).take ret) (t + ret)
          (n + 1 - ret) = r at h1 h2 h3 h4 h5
        refine ⟨by omega, by omega, ?_, WriteOutcome.accept k :: used,
          by rw [List.cons_append, ← h4], ?_⟩
        · rw [h3, List.append_assoc]
          congr 1
          have hsplit : r.1 - t = ret + (r.1 - (t + ret)) := by omega
          rw [hsplit, List.take_add, List.drop_drop]
        · intro hlt
          obtain ⟨before, o, hb, ho⟩ := h5 (by omega)
          exact ⟨WriteOutcome.accept k :: before, o, by rw [hb, List.cons_append], ho⟩

/-- Retried outcomes (`EINTR`, `EAGAIN`) change neither the count returned by the write loop
nor the bytes put on the wire: dropping them from the script gives the same result. -/
theorem SendPrivateLoop_retry (data : List Byte) :
    ∀ (script : List WriteOutcome) (wire : List Byte) (t len : Nat),
      (SendPrivateLoop data (script.filter fun o => !o.isRetry) wire t len).1
        = (SendPrivateLoop data script wire t len).1 ∧
      (SendPrivateLoop data (script.filter fun o => !o.isRetry) wire t len).2.wire
        = (SendPrivateLoop data script wire t len).2.wire := by
  intro script
  induction script with
  | nil => intro wire t len; simp
  | cons o rest ih =>
    intro wire t len
    cases len with
    | zero => simp [SendPrivateLoop]
    | succ n =>
      cases o with
      | eintr => simpa [SendPrivateLoop, WriteOutcome.isRetry] using ih wire t (n + 1)
      | eagain => simpa [SendPrivateLoop, WriteOutcome.isRetry] using ih wire t (n + 1)
      | error => simp [SendPrivateLoop, WriteOutcome.isRetry]
      | zero => simp [SendPrivateLoop, WriteOutcome.isRetry]
      | accept k =>
        simpa [SendPrivateLoop, WriteOutcome.isRetry] using
          ih (wire ++ (data.drop t).take (min (max k 1) (n + 1))) (t + min (max k 1) (n + 1))
            (n + 1 - min (max k 1) (n + 1))

/-- C8, as the claim states it, fails: with an invalid descriptor `SendPrivate` returns 0 for
a request of one byte although no write was made, so none reported an error (the script of
the transport is untouched). -/
theorem SendPrivate_invalid_fd :
    SendPrivate closedDescriptor { script := [.accept 1], wire := [] } [0x01]
      = (0, { script := [.accept 1], wire := [] }) := by
  decide

/-- C8, amended: with a valid descriptor, and writes that accept between 1 and the offered
number of bytes, are interrupted, would block or fail, `SendPrivate` returns the number of
bytes accepted by the writes, at most the length asked for; the bytes put on the wire are the
first bytes of `data`, in order; interrupted and would-block outcomes are retried and change
neither the count nor the bytes written; and the count is less than the length only when a
write reported a non-retryable error, which was the last write made. With an invalid
descriptor, whatever the data and the transport, `SendPrivate` returns 0 and makes no write:
the transport is as it was. -/
theorem SendPrivate_spec (v : VendorInterface) (u : Uart) (data : List Byte) :
    (v.uart_fd_ ≠ INVALID_FD → WriteOutcome.zero ∉ u.script →
      (SendPrivate v u data).1 ≤ data.length ∧
      (SendPrivate v u data).2.wire = u.wire ++ data.take (SendPrivate v u data).1 ∧
      (SendPrivate v u data).2.wire.length = u.wire.length + (SendPrivate v u data).1 ∧
      (SendPrivate v { u with script := u.script.filter fun o => !o.isRetry } data).1
        = (SendPrivate v u data).1 ∧
      (SendPrivate v { u with script := u.script.filter fun o => !o.isRetry } data).2.wire
        = (SendPrivate v u data).2.wire ∧
      ((SendPrivate v u data).1 < data.length →
        ∃ before,
          u.script = before ++ WriteOutcome.error :: (SendPrivate v u data).2.script)) ∧
    (v.uart_fd_ = INVALID_FD → SendPrivate v u data = (0, u)) := by
  refine ⟨fun hfd hzero => ?_, fun hfd => by simp only [SendPrivate, if_pos hfd]⟩
  obtain ⟨_, h2, h3, used, h4, h5⟩ := SendPrivateLoop_spec data u.script u.wire 0 data.length
  have hr := SendPrivateLoop_retry data u.script u.wire 0 data.length
  simp only [SendPrivate, if_neg hfd]
  simp only [Nat.zero_add, Nat.sub_zero, List.drop_zero] at h2 h3 h5
  refine ⟨h2, h3, ?_, hr.1, hr.2, ?_⟩
  · rw [h3, List.length_append, List.length_take, Nat.min_eq_left h2]
  · intro hlt
    obtain ⟨before, o, hb, ho⟩ := h5 hlt
    refine ⟨before, ?_⟩
    have hmem : o ∈ u.script := by
      rw [h4, hb]
      simp
    rcases ho with ho | ho
    · rw [← ho]
      conv_lhs => rw [h4, hb]
      simp
    · exact absurd (ho ▸ hmem) hzero

/-- Witness of `SendPrivate_spec`: three bytes offered; the transport would block, accepts
two bytes, then fails. With the valid descriptor 3, two bytes are returned and written; with
an invalid descriptor 0 is returned and the transport is untouched. -/
theorem SendPrivate_spec_witness :
    (opened 3 true).uart_fd_ ≠ INVALID_FD ∧
    WriteOutcome.zero ∉ [WriteOutcome.eagain, .accept 2, .error] ∧
    (SendPrivate (opened 3 true) { script := [.eagain, .accept 2, .error], wire := [] }
        [0x01, 0x02, 0x03]).1 = 2 ∧
    (SendPrivate (opened 3 true) { script := [.eagain, .accept 2, .error], wire := [] }
        [0x01, 0x02, 0x03]).2.wire = [0x01, 0x02] ∧
    closedDescriptor.uart_fd_ = INVALID_FD ∧
    SendPrivate closedDescriptor { script := [.eagain, .accept 2, .error], wire := [] }
        [0x01, 0x02, 0x03]
      = (0, { script := [.eagain, .accept 2, .error], wire := [] }) := by
  have h := (SendPrivate_spec (opened 3 true)
    { script := [.eagain, .accept 2, .error], wire := [] } [0x01, 0x02, 0x03]).1
    (by decide) (by decide)
  have h0 := (SendPrivate_spec closedDescriptor
    { script := [.eagain, .accept 2, .error], wire := [] } [0x01, 0x02, 0x03]).2 (by decide)
  refine ⟨by decide, by decide, by decide, ?_, by decide, h0⟩
  rw [h.2.1]
  decide

/-- On a transport that accepts everything, `SendPrivate` with a valid descriptor transmits
all of `data` and leaves a transport that still accepts everything. -/
theorem SendPrivate_acceptsAll (v : VendorInterface) (u : Uart) (data : List Byte)
    (hfd : v.uart_fd_ ≠ INVALID_FD) (hacc : u.acceptsAll) :
    (SendPrivate v u data).1 = data.length ∧
    (SendPrivate v u data).2.wire = u.wire ++ data ∧
    (SendPrivate v u data).2.acceptsAll := by
  obtain ⟨_, h2, h3, used, h4, h5⟩ := SendPrivateLoop_spec data u.script u.wire 0 data.length
  simp only [SendPrivate, if_neg hfd]
  simp only [Nat.zero_add, Nat.sub_zero, List.drop_zero] at h2 h3 h5
  have hfull : (SendPrivateLoop data u.script u.wire 0 data.length).1 = data.length := by
    by_contra hne
    obtain ⟨before, o, hb, ho⟩ := h5 (by omega)
    have hmem : o ∈ u.script := by
      rw [h4, hb]
      simp
    have := hacc o hmem
    rcases ho with ho | ho
    · exact this.1 ho
    · exact this.2 ho
  refine ⟨hfull, ?_, ?_⟩
  · rw [h3, hfull, List.take_length]
  · intro o ho
    apply hacc
    rw [h4]
    exact List.mem_append_right _ ho

/-- While firmware is not configured, a run of `Send` calls only appends to the queue. -/
theorem SendAll_unconfigured (u : Uart) (ds : List (List Byte)) :
    ∀ v : VendorInterface, v.firmware_configured_ = false →
      SendAll v u ds = ({ v with queued_data_ := v.queued_data_ ++ ds.flatten }, u) := by
  induction ds with
  | nil => intro v _; simp [SendAll]
  | cons d ds ih =>
    intro v hcfg
    simp only [SendAll]
    rw [Send_queues v u d hcfg, ih { v with queued_data_ := v.queued_data_ ++ d } hcfg]
    simp [List.append_assoc]

/-- On an open transport that accepts everything, `OnFirmwareConfigured` sets the flag,
writes the whole queue, in order, and empties it. -/
theorem OnFirmwareConfigured_flush (v : VendorInterface) (u : Uart) (result : Nat)
    (hfd : v.uart_fd_ ≠ INVALID_FD) (hacc : u.acceptsAll) :
    (OnFirmwareConfigured v u result).1
      = { v with firmware_configured_ := true, queued_data_ := [] } ∧
    (OnFirmwareConfigured v u result).2.wire = u.wire ++ v.queued_data_ ∧
    (OnFirmwareConfigured v u result).2.acceptsAll := by
  by_cases hq : v.queued_data_ = []
  · have h := SendPrivate_acceptsAll { v with firmware_configured_ := true } u [] hfd hacc
    simp only [hq, List.append_nil] at h
    simp only [OnFirmwareConfigured, Send, hq, List.length_nil, and_self, if_true,
      List.append_nil]
    exact ⟨trivial, h.2.1, h.2.2⟩
  · have hlen : v.queued_data_.length ≠ 0 := fun h => hq (List.length_eq_zero.mp h)
    have h1 := SendPrivate_acceptsAll { v with firmware_configured_ := true } u v.queued_data_
      hfd hacc
    have h2 := SendPrivate_acceptsAll
      { v with firmware_configured_ := true, queued_data_ := resize v.queued_data_ 0 }
      (SendPrivate { v with firmware_configured_ := true } u v.queued_data_).2 [] hfd h1.2.2
    simp only [OnFirmwareConfigured, Send, hlen, and_false, if_false, not_true_eq_false]
    refine ⟨?_, ?_, h2.2.2⟩
    · simp [resize]
    · rw [h2.2.1, h1.2.1]
      simp

/-- C7, as the claim states it, fails: on the controller that `Open` leaves when the driver
hands back `INVALID_FD` (the descriptor is invalid), with a transport that accepts every byte
offered, `[01, 02, 03]` is queued while unconfigured; `OnFirmwareConfigured` then empties the
queue and `Send([04])` returns 0, and no byte has been written to the transport. -/
theorem queue_lost_invalid_fd :
    Open unopened true
        { dlopen_found := true, dlsym_found := true, local_address := true, init_status := 0,
          fd_count := 1, fd0 := INVALID_FD }
      = .returned false closedDescriptor
          [.init, .BT_VND_OP_POWER_CTRL .BT_VND_PWR_OFF, .BT_VND_OP_POWER_CTRL .BT_VND_PWR_ON,
           .BT_VND_OP_USERIAL_OPEN] ∧
    closedDescriptor.firmware_configured_ = false ∧
    closedDescriptor.queued_data_ = [] ∧
    ({ script := [], wire := [] } : Uart).acceptsAll ∧
    SendAll closedDescriptor { script := [], wire := [] } [[0x01, 0x02, 0x03]]
      = ({ closedDescriptor with queued_data_ := [0x01, 0x02, 0x03] },
         { script := [], wire := [] }) ∧
    OnFirmwareConfigured { closedDescriptor with queued_data_ := [0x01, 0x02, 0x03] }
        { script := [], wire := [] } 0
      = ({ closedDescriptor with firmware_configured_ := true }, { script := [], wire := [] }) ∧
    Send { closedDescriptor with firmware_configured_ := true } { script := [], wire := [] }
        [0x04]
      = (0, { closedDescriptor with firmware_configured_ := true },
         { script := [], wire := [] }) := by
  decide

/-- C7, amended: with a valid descriptor (`uart_fd_` is not `INVALID_FD`), after any run of
`Send` calls made while unconfigured (data `D1 .. Dn`, starting from an empty queue), then
`OnFirmwareConfigured`, then `Send(D)`, on a transport that accepts every byte offered (over
any number of writes shorter than asked and retries): nothing is written before
configuration, the bytes written are exactly `D1 ++ .. ++ Dn` followed by `D`, each once and
in order, the queue is empty afterwards and `Send(D)` returns the length of `D`. -/
theorem queue_flushed_then_data (v : VendorInterface) (u : Uart) (ds : List (List Byte))
    (d : List Byte) (result : Nat)
    (hcfg : v.firmware_configured_ = false) (hq : v.queued_data_ = [])
    (hfd : v.uart_fd_ ≠ INVALID_FD) (hacc : u.acceptsAll) :
    (SendAll v u ds).2 = u ∧
    (SendAll v u ds).1.queued_data_ = ds.flatten ∧
    (OnFirmwareConfigured (SendAll v u ds).1 (SendAll v u ds).2 result).2.wire
      = u.wire ++ ds.flatten ∧
    (OnFirmwareConfigured (SendAll v u ds).1 (SendAll v u ds).2 result).1.queued_data_ = [] ∧
    (Send (OnFirmwareConfigured (SendAll v u ds).1 (SendAll v u ds).2 result).1
        (OnFirmwareConfigured (SendAll v u ds).1 (SendAll v u ds).2 result).2 d).2.2.wire
      = u.wire ++ ds.flatten ++ d ∧
    (Send (OnFirmwareConfigured (SendAll v u ds).1 (SendAll v u ds).2 result).1
        (OnFirmwareConfigured (SendAll v u ds).1 (SendAll v u ds).2 result).2 d).2.1.queued_data_
      = [] ∧
    (Send (OnFirmwareConfigured (SendAll v u ds).1 (SendAll v u ds).2 result).1
        (OnFirmwareConfigured (SendAll v u ds).1 (SendAll v u ds).2 result).2 d).1
      = d.length := by
  have hall := SendAll_unconfigured u ds v hcfg
  rw [hall, hq, List.nil_append]
  obtain ⟨f1, f2, f3⟩ := OnFirmwareConfigured_flush { v with queued_data_ := ds.flatten } u
    result hfd hacc
  refine ⟨rfl, rfl, f2, by rw [f1], ?_⟩
  have hsend := SendPrivate_acceptsAll (OnFirmwareConfigured { v with queued_data_ := ds.flatten }
    u result).1 (OnFirmwareConfigured { v with queued_data_ := ds.flatten } u result).2 d
    (by rw [f1]; exact hfd) f3
  have hc : (OnFirmwareConfigured { v with queued_data_ := ds.flatten } u
      result).1.firmware_configured_ = true := by rw [f1]
  have hqe : (OnFirmwareConfigured { v with queued_data_ := ds.flatten } u
      result).1.queued_data_ = [] := by rw [f1]
  simp only [Send, hc, hqe, List.length_nil, and_self, if_true]
  exact ⟨by rw [hsend.2.1, f2], trivial, hsend.1⟩

/-- Witness of `queue_flushed_then_data`: `[01, 02, 03]` is queued while unconfigured, the
transport takes the queue in two writes after a would-block; then `Send([04])`: the wire holds
`[01, 02, 03]` then `[04]`, and the queue is empty. -/
theorem queue_flushed_then_data_witness :
    (Send (OnFirmwareConfigured
            (SendAll (opened 3 true) { script := [.eagain, .accept 2], wire := [] }
              [[0x01, 0x02, 0x03]]).1
            (SendAll (opened 3 true) { script := [.eagain, .accept 2], wire := [] }
              [[0x01, 0x02, 0x03]]).2 0).1
        (OnFirmwareConfigured
            (SendAll (opened 3 true) { script := [.eagain, .accept 2], wire := [] }
              [[0x01, 0x02, 0x03]]).1
            (SendAll (opened 3 true) { script := [.eagain, .accept 2], wire := [] }
              [[0x01, 0x02, 0x03]]).2 0).2 [0x04]).2.2.wire
      = [0x01, 0x02, 0x03, 0x04] ∧
    (SendAll (opened 3 true) { script := [.eagain, .accept 2], wire := [] }
      [[0x01, 0x02, 0x03]]).2.wire = [] :=
  have h := queue_flushed_then_data (opened 3 true) { script := [.eagain, .accept 2], wire := [] }
    [[0x01, 0x02, 0x03]] [0x04] 0 rfl rfl (by decide) (by decide)
  ⟨h.2.2.2.2.1, by rw [h.1]⟩

/-- Without a borrow, `size_t` subtraction is subtraction. -/
theorem sizeSub_of_le (a b : Nat) (hb : b ≤ a) (ha : a < 2 ^ 64) : sizeSub a b = a - b := by
  unfold sizeSub
  omega

/-- Without a carry, `size_t` addition is addition. -/
theorem sizeAdd_of_lt (a b : Nat) (h : a + b < 2 ^ 64) : sizeAdd a b = a + b := by
  unfold sizeAdd
  omega

/-- A payload length is at most 65535. -/
theorem HciGetPacketLengthForType_le (type : Nat) (packet : List Byte) :
    HciGetPacketLengthForType type packet ≤ 65535 := by
  simp only [HciGetPacketLengthForType]
  split
  · exact (shift_or_eq _ _).2
  · have := (packet.getD (packet_length_offset_for_type.getD type 0) 0).isLt
    omega

/-- `resize(n)` gives a vector of `n` elements. -/
theorem length_resize (buf : List Byte) (n : Nat) : (resize buf n).length = n := by
  simp [resize]
  omega

/-- Indexing inside the first part of a buffer. -/
theorem getD_append_of_lt (pre junk : List Byte) (i : Nat) (h : i < pre.length) :
    (pre ++ junk).getD i 0 = pre.getD i 0 := by
  simp [List.getD_eq_getElem?_getD, List.getElem?_append_left h]

/-- The length decoder looks only at the preamble. -/
theorem HciGetPacketLengthForType_append (type : Nat) (pre junk : List Byte)
    (htype : type = 2 ∨ type = 3 ∨ type = 4)
    (hlen : pre.length = preamble_size_for_type.getD type 0) :
    HciGetPacketLengthForType type (pre ++ junk) = HciGetPacketLengthForType type pre := by
  rcases htype with h | h | h <;> subst h
  · have h4 : pre.length = 4 := by simpa [preamble_size_for_type] using hlen
    have e3 : (pre ++ junk)[3]? = pre[3]? := List.getElem?_append_left (by omega)
    have e2 : (pre ++ junk)[2]? = pre[2]? := List.getElem?_append_left (by omega)
    simp [HciGetPacketLengthForType, packet_length_offset_for_type, e2, e3]
  · have h3 : pre.length = 3 := by simpa [preamble_size_for_type] using hlen
    have e2 : (pre ++ junk)[2]? = pre[2]? := List.getElem?_append_left (by omega)
    simp [HciGetPacketLengthForType, packet_length_offset_for_type, e2]
  · have h2 : pre.length = 2 := by simpa [preamble_size_for_type] using hlen
    have e1 : (pre ++ junk)[1]? = pre[1]? := List.getElem?_append_left (by omega)
    simp [HciGetPacketLengthForType, packet_length_offset_for_type, e1]

/-- An inbound packet is of type ACLData, SCOData or Event. -/
theorem inbound_type (p : Packet) (hp : p.inbound) :
    p.type.val = 2 ∨ p.type.val = 3 ∨ p.type.val = 4 := by
  obtain ⟨⟨ht, _, _⟩, hc, _⟩ := hp
  simp only [HCI_PACKET_TYPE_COMMAND, HCI_PACKET_TYPE_ACL_DATA, HCI_PACKET_TYPE_SCO_DATA,
    HCI_PACKET_TYPE_EVENT] at ht hc
  omega

/-- The preamble of an inbound packet has 2 to 4 bytes. -/
theorem inbound_preamble_length (p : Packet) (hp : p.inbound) :
    2 ≤ p.preamble.length ∧ p.preamble.length ≤ 4 := by
  have ht := inbound_type p hp
  obtain ⟨⟨_, hl, _⟩, _, _⟩ := hp
  rcases ht with h | h | h <;> rw [h] at hl <;> simp [preamble_size_for_type] at hl <;> omega

/-- The payload of an inbound packet has 1 to 65535 bytes. -/
theorem inbound_payload_length (p : Packet) (hp : p.inbound) :
    1 ≤ p.payload.length ∧ p.payload.length ≤ 65535 := by
  obtain ⟨⟨_, _, hl⟩, _, hne⟩ := hp
  have := HciGetPacketLengthForType_le p.type.val p.preamble
  have := List.length_pos.mpr hne
  omega

/-- The step made in `HCI_IDLE` on an accepted type octet. -/
theorem idle_step (v : VendorInterface) (b : Byte)
    (hst : v.hci_parser_state_ = .HCI_IDLE) (hb : 2 ≤ b.val ∧ b.val ≤ 4) :
    OnDataReady v (.bytes [b]) = .next { v with
        hci_packet_type_ := b.val
        hci_parser_state_ := .HCI_TYPE_READY
        hci_packet_ := resize v.hci_packet_ HCI_PREAMBLE_SIZE_MAX
        hci_packet_bytes_remaining_ := preamble_size_for_type.getD b.val 0
        hci_packet_bytes_read_ := 0 } [] := by
  simp [OnDataReady, hst, ReadResult.bytes_read, ReadResult.data, hb]

/-- In `HCI_IDLE` at the start of an inbound packet: the read takes the type octet and the framer is then inside the packet. -/
theorem framing_idle (v0 v : VendorInterface) (u : List Byte) (p : Packet) (rest : List Byte)
    (hst : v.hci_parser_state_ = .HCI_IDLE) (hF : Framing v0 v u p rest) (hp : p.inbound)
    (k : Nat) :
    readChunk k (readCount v) u = [p.type] ∧
    ∃ v1, OnDataReady v (.bytes [p.type]) = .next v1 [] ∧ Framing v0 v1 (u.drop 1) p rest := by
  unfold Framing at hF
  rw [hst] at hF
  obtain ⟨hf1, hf2, hf3, hu⟩ := hF
  simp only at hu
  have ht := inbound_type p hp
  have hpl := inbound_preamble_length p hp
  have hrange : 2 ≤ p.type.val ∧ p.type.val ≤ 4 := by omega
  have hmin : min (max k 1) 1 = 1 := by omega
  refine ⟨?_, ?_⟩
  · simp [readChunk, readCount, hst, hmin, hu, Packet.encode]
  · refine ⟨_, idle_step v p.type hst hrange, ?_⟩
    have hsz : preamble_size_for_type.getD p.type.val 0 = p.preamble.length := hp.1.2.1.symm
    simp only [Framing, hf1, hf2, hf3, true_and, hsz, length_resize]
    simp [hu, Packet.encode]
    omega

/-- The byte count of a read, as a `size_t`. -/
theorem bytes_read_of_lt (d : List Byte) (h : d.length < 2 ^ 64) :
    (ReadResult.bytes d).bytes_read = d.length := by
  simp only [ReadResult.bytes_read]
  omega

/-- The step in `HCI_TYPE_READY` when the read returns fewer bytes than remain of the preamble. -/
theorem preamble_step_more (v : VendorInterface) (d : List Byte)
    (hst : v.hci_parser_state_ = .HCI_TYPE_READY) (hd : 1 ≤ d.length)
    (hlt : d.length < v.hci_packet_bytes_remaining_)
    (hin : v.hci_packet_bytes_read_ + v.hci_packet_bytes_remaining_ < 2 ^ 64) :
    OnDataReady v (.bytes d) = .next { v with
        hci_packet_ := writeAt v.hci_packet_ v.hci_packet_bytes_read_ d
        hci_packet_bytes_remaining_ := v.hci_packet_bytes_remaining_ - d.length
        hci_packet_bytes_read_ := v.hci_packet_bytes_read_ + d.length } [] := by
  have hb := bytes_read_of_lt d (by omega)
  have hs := sizeSub_of_le v.hci_packet_bytes_remaining_ d.length (by omega) (by omega)
  have ha := sizeAdd_of_lt v.hci_packet_bytes_read_ d.length (by omega)
  have hne : v.hci_packet_bytes_remaining_ - d.length ≠ 0 := by omega
  have hpos : d.length > 0 := by omega
  simp only [OnDataReady, hst, hb, hs, ha, ReadResult.data, if_pos hpos, if_neg hne]

/-- The step in `HCI_TYPE_READY` when the read returns all that remains of the preamble. -/
theorem preamble_step_last (v : VendorInterface) (d : List Byte)
    (hst : v.hci_parser_state_ = .HCI_TYPE_READY) (hd : 1 ≤ d.length)
    (heq : d.length = v.hci_packet_bytes_remaining_)
    (hin : v.hci_packet_bytes_read_ + v.hci_packet_bytes_remaining_ < 2 ^ 64) :
    OnDataReady v (.bytes d) = .next { v with
        hci_packet_ := resize (writeAt v.hci_packet_ v.hci_packet_bytes_read_ d)
          (preamble_size_for_type.getD v.hci_packet_type_ 0 +
            HciGetPacketLengthForType v.hci_packet_type_
              (writeAt v.hci_packet_ v.hci_packet_bytes_read_ d))
        hci_packet_bytes_remaining_ := HciGetPacketLengthForType v.hci_packet_type_
              (writeAt v.hci_packet_ v.hci_packet_bytes_read_ d)
        hci_parser_state_ := .HCI_PAYLOAD
        hci_packet_bytes_read_ := 0 } [] := by
  have hb := bytes_read_of_lt d (by omega)
  have hs := sizeSub_of_le v.hci_packet_bytes_remaining_ d.length (by omega) (by omega)
  have hz : v.hci_packet_bytes_remaining_ - d.length = 0 := by omega
  have hpos : d.length > 0 := by omega
  simp only [OnDataReady, hst, hb, hs, ReadResult.data, if_pos hpos, hz, if_true]

/-- The step in `HCI_PAYLOAD` when the read returns fewer bytes than remain of the payload. -/
theorem payload_step_more (v : VendorInterface) (d : List Byte)
    (hst : v.hci_parser_state_ = .HCI_PAYLOAD)
    (hlt : d.length < v.hci_packet_bytes_remaining_)
    (hin : v.hci_packet_bytes_read_ + v.hci_packet_bytes_remaining_ < 2 ^ 64) :
    OnDataReady v (.bytes d) = .next { v with
        hci_packet_ := writeAt v.hci_packet_
          (preamble_size_for_type.getD v.hci_packet_type_ 0 + v.hci_packet_bytes_read_) d
        hci_packet_bytes_remaining_ := v.hci_packet_bytes_remaining_ - d.length
        hci_packet_bytes_read_ := v.hci_packet_bytes_read_ + d.length } [] := by
  have hb := bytes_read_of_lt d (by omega)
  have hs := sizeSub_of_le v.hci_packet_bytes_remaining_ d.length (by omega) (by omega)
  have ha := sizeAdd_of_lt v.hci_packet_bytes_read_ d.length (by omega)
  have hne : v.hci_packet_bytes_remaining_ - d.length ≠ 0 := by omega
  simp only [OnDataReady, hst, hb, hs, ha, ReadResult.data, if_neg hne]

/-- The step in `HCI_PAYLOAD` when the read returns all that remains of the payload: the packet is completed and the framer is idle. -/
theorem payload_step_last (v : VendorInterface) (d : List Byte)
    (hst : v.hci_parser_state_ = .HCI_PAYLOAD)
    (heq : d.length = v.hci_packet_bytes_remaining_)
    (hin : v.hci_packet_bytes_read_ + v.hci_packet_bytes_remaining_ < 2 ^ 64) :
    OnDataReady v (.bytes d) = .next { v with
        hci_packet_ := writeAt v.hci_packet_
          (preamble_size_for_type.getD v.hci_packet_type_ 0 + v.hci_packet_bytes_read_) d
        hci_packet_bytes_remaining_ := 0
        hci_packet_bytes_read_ := v.hci_packet_bytes_read_ + d.length
        hci_parser_state_ := .HCI_IDLE }
      [{ type := v.hci_packet_type_
         packet := writeAt v.hci_packet_
          (preamble_size_for_type.getD v.hci_packet_type_ 0 + v.hci_packet_bytes_read_) d
         calls := deliver { v with
            hci_packet_ := writeAt v.hci_packet_
              (preamble_size_for_type.getD v.hci_packet_type_ 0 + v.hci_packet_bytes_read_) d
            hci_packet_bytes_remaining_ := 0
            hci_packet_bytes_read_ := v.hci_packet_bytes_read_ + d.length } }] := by
  have hb := bytes_read_of_lt d (by omega)
  have hs := sizeSub_of_le v.hci_packet_bytes_remaining_ d.length (by omega) (by omega)
  have ha := sizeAdd_of_lt v.hci_packet_bytes_read_ d.length (by omega)
  have hz : v.hci_packet_bytes_remaining_ - d.length = 0 := by omega
  simp only [OnDataReady, hst, hb, hs, ha, ReadResult.data, hz, if_true]

/-- After a write inside the buffer, the buffer up to the end of the write is what was there before the write, then the bytes written. -/
theorem take_writeAt (buf : List Byte) (off : Nat) (d : List Byte) (h : off ≤ buf.length) :
    (writeAt buf off d).take (off + d.length) = buf.take off ++ d := by
  unfold writeAt
  rw [List.take_append_of_le_length (by simp; omega)]
  rw [List.take_of_length_le (by simp)]

/-- A write inside the buffer keeps its size. -/
theorem length_writeAt (buf : List Byte) (off : Nat) (d : List Byte)
    (h : off + d.length ≤ buf.length) : (writeAt buf off d).length = buf.length := by
  simp [writeAt]
  omega

/-- Consecutive segments of a list. -/
theorem take_add_drop (l : List Byte) (a m : Nat) :
    l.take a ++ (l.drop a).take m = l.take (a + m) := by
  rw [List.take_add]

/-- `resize` keeps the leading bytes. -/
theorem take_resize_append (pre junk : List Byte) (n : Nat) (h : pre.length ≤ n) :
    (resize (pre ++ junk) n).take pre.length = pre := by
  unfold resize
  rw [List.take_append_of_le_length (by rw [List.length_take, List.length_append]; omega),
    List.take_take, Nat.min_eq_left h, List.take_left' rfl]

/-- In `HCI_TYPE_READY` inside an inbound packet: the read takes between 1 and the remaining number of preamble bytes, nothing is dispatched and the framer stays inside the packet. -/
theorem framing_preamble (v0 v : VendorInterface) (u : List Byte) (p : Packet)
    (rest : List Byte) (hst : v.hci_parser_state_ = .HCI_TYPE_READY)
    (hF : Framing v0 v u p rest) (hp : p.inbound) (k : Nat) :
    1 ≤ (readChunk k (readCount v) u).length ∧
    ∃ v1, OnDataReady v (.bytes (readChunk k (readCount v) u)) = .next v1 [] ∧
      Framing v0 v1 (u.drop (readChunk k (readCount v) u).length) p rest := by
  unfold Framing at hF
  rw [hst] at hF
  obtain ⟨hf1, hf2, hf3, htype, hlen, hrem, hsum, htake, hu⟩ := hF
  have hpl := inbound_preamble_length p hp
  have hyl := inbound_payload_length p hp
  have hcount : readCount v = v.hci_packet_bytes_remaining_ := by simp [readCount, hst]
  have hm1 : 1 ≤ min (max k 1) v.hci_packet_bytes_remaining_ := by omega
  have hm2 : min (max k 1) v.hci_packet_bytes_remaining_ ≤ v.hci_packet_bytes_remaining_ := by
    omega
  have hd : readChunk k (readCount v) u
      = (p.preamble.drop v.hci_packet_bytes_read_).take
          (min (max k 1) v.hci_packet_bytes_remaining_) := by
    rw [readChunk, hcount, hu, List.append_assoc]
    exact List.take_append_of_le_length (by simp; omega)
  rw [hd]
  generalize min (max k 1) v.hci_packet_bytes_remaining_ = m at hm1 hm2
  have hdl : ((p.preamble.drop v.hci_packet_bytes_read_).take m).length = m := by
    simp
    omega
  have hudrop : u.drop m = p.preamble.drop (v.hci_packet_bytes_read_ + m) ++ p.payload ++ rest := by
    rw [hu, List.append_assoc, List.drop_append_of_le_length (by simp; omega), List.drop_drop,
      List.append_assoc]
  have hlen4 : v.hci_packet_.length = 4 := by simpa using hlen
  have htk : (writeAt v.hci_packet_ v.hci_packet_bytes_read_
        ((p.preamble.drop v.hci_packet_bytes_read_).take m)).take (v.hci_packet_bytes_read_ + m)
      = p.preamble.take (v.hci_packet_bytes_read_ + m) := by
    have := take_writeAt v.hci_packet_ v.hci_packet_bytes_read_
      ((p.preamble.drop v.hci_packet_bytes_read_).take m) (by omega)
    rw [hdl] at this
    rw [this, htake, take_add_drop]
  have hwl : (writeAt v.hci_packet_ v.hci_packet_bytes_read_
        ((p.preamble.drop v.hci_packet_bytes_read_).take m)).length = 4 := by
    rw [length_writeAt _ _ _ (by rw [hdl]; omega), hlen4]
  rw [hdl]
  refine ⟨hm1, ?_⟩
  by_cases hlast : m = v.hci_packet_bytes_remaining_
  · refine ⟨_, preamble_step_last v _ hst (by rw [hdl]; exact hm1) (by rw [hdl]; exact hlast)
      (by omega), ?_⟩
    have hfull : v.hci_packet_bytes_read_ + m = p.preamble.length := by omega
    rw [hfull, List.take_of_length_le (le_refl _)] at htk
    have hsplit : writeAt v.hci_packet_ v.hci_packet_bytes_read_
          ((p.preamble.drop v.hci_packet_bytes_read_).take m)
        = p.preamble ++ (writeAt v.hci_packet_ v.hci_packet_bytes_read_
          ((p.preamble.drop v.hci_packet_bytes_read_).take m)).drop p.preamble.length := by
      conv_lhs => rw [← List.take_append_drop p.preamble.length (writeAt v.hci_packet_
        v.hci_packet_bytes_read_ ((p.preamble.drop v.hci_packet_bytes_read_).take m))]
      rw [htk]
    have hL : HciGetPacketLengthForType v.hci_packet_type_
          (writeAt v.hci_packet_ v.hci_packet_bytes_read_
            ((p.preamble.drop v.hci_packet_bytes_read_).take m)) = p.payload.length := by
      rw [hsplit, htype, HciGetPacketLengthForType_append _ _ _ (inbound_type p hp) hp.1.2.1]
      exact hp.1.2.2.symm
    have hsz : preamble_size_for_type.getD v.hci_packet_type_ 0 = p.preamble.length := by
      rw [htype]
      exact hp.1.2.1.symm
    rw [hL, hsz]
    simp only [Framing, hf1, hf2, hf3, htype, true_and, length_resize, Nat.zero_add,
      Nat.add_zero, List.take_zero, List.append_nil, List.drop_zero]
    refine ⟨hyl.1, ?_, ?_⟩
    · rw [hsplit]
      exact take_resize_append _ _ _ (by omega)
    · rw [hudrop, hfull, List.drop_of_length_le (le_refl _), List.nil_append]
  · refine ⟨_, preamble_step_more v _ hst (by rw [hdl]; exact hm1) (by rw [hdl]; omega)
      (by omega), ?_⟩
    rw [hdl]
    simp only [Framing, hf1, hf2, hf3, hst, htype, true_and, hwl, HCI_PREAMBLE_SIZE_MAX,
      HCI_ACL_PREAMBLE_SIZE]
    exact ⟨by omega, by omega, htk, hudrop⟩

/-- In `HCI_PAYLOAD` inside an inbound packet: the read takes between 1 and the remaining number of payload bytes; either the framer stays inside the packet, or the packet is completed, the framer is idle and exactly the bytes after the packet are unread. -/
theorem framing_payload (v0 v : VendorInterface) (u : List Byte) (p : Packet)
    (rest : List Byte) (hst : v.hci_parser_state_ = .HCI_PAYLOAD)
    (hF : Framing v0 v u p rest) (hp : p.inbound) (k : Nat) :
    1 ≤ (readChunk k (readCount v) u).length ∧
    ∃ v1, (OnDataReady v (.bytes (readChunk k (readCount v) u)) = .next v1 [] ∧
        Framing v0 v1 (u.drop (readChunk k (readCount v) u).length) p rest) ∨
      (OnDataReady v (.bytes (readChunk k (readCount v) u)) = .next v1 [p.completed v0] ∧
        v1.hci_parser_state_ = .HCI_IDLE ∧
        v1.firmware_configured_ = v0.firmware_configured_ ∧
        v1.packet_read_cb_ = v0.packet_read_cb_ ∧
        v1.internal_command_cb = v0.internal_command_cb ∧
        u.drop (readChunk k (readCount v) u).length = rest) := by
  unfold Framing at hF
  rw [hst] at hF
  obtain ⟨hf1, hf2, hf3, htype, hlen, hrem, hsum, htake, hu⟩ := hF
  have hpl := inbound_preamble_length p hp
  have hyl := inbound_payload_length p hp
  have hcount : readCount v = v.hci_packet_bytes_remaining_ := by simp [readCount, hst]
  have hm1 : 1 ≤ min (max k 1) v.hci_packet_bytes_remaining_ := by omega
  have hm2 : min (max k 1) v.hci_packet_bytes_remaining_ ≤ v.hci_packet_bytes_remaining_ := by
    omega
  have hd : readChunk k (readCount v) u
      = (p.payload.drop v.hci_packet_bytes_read_).take
          (min (max k 1) v.hci_packet_bytes_remaining_) := by
    rw [readChunk, hcount, hu]
    exact List.take_append_of_le_length (by simp; omega)
  rw [hd]
  generalize min (max k 1) v.hci_packet_bytes_remaining_ = m at hm1 hm2
  have hdl : ((p.payload.drop v.hci_packet_bytes_read_).take m).length = m := by
    simp
    omega
  have hudrop : u.drop m = p.payload.drop (v.hci_packet_bytes_read_ + m) ++ rest := by
    rw [hu, List.drop_append_of_le_length (by simp; omega), List.drop_drop]
  have hsz : preamble_size_for_type.getD v.hci_packet_type_ 0 = p.preamble.length := by
    rw [htype]
    exact hp.1.2.1.symm
  have htk : (writeAt v.hci_packet_ (p.preamble.length + v.hci_packet_bytes_read_)
        ((p.payload.drop v.hci_packet_bytes_read_).take m)).take
          (p.preamble.length + (v.hci_packet_bytes_read_ + m))
      = p.preamble ++ p.payload.take (v.hci_packet_bytes_read_ + m) := by
    have := take_writeAt v.hci_packet_ (p.preamble.length + v.hci_packet_bytes_read_)
      ((p.payload.drop v.hci_packet_bytes_read_).take m) (by omega)
    rw [hdl, Nat.add_assoc] at this
    rw [this, htake, List.append_assoc, take_add_drop]
  have hwl : (writeAt v.hci_packet_ (p.preamble.length + v.hci_packet_bytes_read_)
        ((p.payload.drop v.hci_packet_bytes_read_).take m)).length
      = p.preamble.length + p.payload.length := by
    rw [length_writeAt _ _ _ (by rw [hdl]; omega), hlen]
  rw [hdl]
  refine ⟨hm1, ?_⟩
  by_cases hlast : m = v.hci_packet_bytes_remaining_
  · have hfull : v.hci_packet_bytes_read_ + m = p.payload.length := by omega
    have hpkt : writeAt v.hci_packet_ (p.preamble.length + v.hci_packet_bytes_read_)
        ((p.payload.drop v.hci_packet_bytes_read_).take m) = p.preamble ++ p.payload := by
      rw [hfull, List.take_of_length_le (le_of_eq hwl),
        List.take_of_length_le (le_refl _)] at htk
      exact htk
    have hstep := payload_step_last v _ hst (by rw [hdl]; exact hlast) (by omega)
    rw [hsz, hpkt] at hstep
    refine ⟨_, Or.inr ⟨hstep.trans (congrArg (StepResult.next _) ?_), ?_, hf1, hf2, hf3, ?_⟩⟩
    · simp only [Packet.completed, deliver, hf1, hf2, hf3, htype]
    · rfl
    rw [hudrop, hfull, List.drop_of_length_le (le_refl _), List.nil_append]
  · refine ⟨_, Or.inl ⟨payload_step_more v _ hst (by rw [hdl]; omega) (by omega), ?_⟩⟩
    rw [hdl, hsz]
    simp only [Framing, hf1, hf2, hf3, hst, htype, true_and, hwl]
    exact ⟨by omega, by omega, htk, hudrop⟩

/-- Inside an inbound packet, the unread bytes start with the rest of the packet, which is not empty, and the next read asks for at least 1 byte and for no more than is left of the packet. -/
theorem framing_unread (v0 v : VendorInterface) (u : List Byte) (p : Packet)
    (rest : List Byte) (hF : Framing v0 v u p rest) (hp : p.inbound) :
    ∃ x, x ≠ [] ∧ u = x ++ rest ∧ 1 ≤ readCount v ∧ readCount v ≤ x.length := by
  have hpl := inbound_preamble_length p hp
  have hyl := inbound_payload_length p hp
  unfold Framing at hF
  obtain ⟨_, _, _, hF⟩ := hF
  cases hst : v.hci_parser_state_ <;> rw [hst] at hF
  · refine ⟨p.encode, by simp [Packet.encode], hF, ?_, ?_⟩ <;>
      simp [readCount, hst, Packet.encode]
  · obtain ⟨_, _, hrem, hsum, _, hu⟩ := hF
    have hlen : 1 ≤ (p.preamble.drop v.hci_packet_bytes_read_ ++ p.payload).length := by
      simp
      omega
    refine ⟨p.preamble.drop v.hci_packet_bytes_read_ ++ p.payload,
      List.ne_nil_of_length_pos (by omega), hu, ?_, ?_⟩
    · simpa [readCount, hst] using hrem
    · simp [readCount, hst]
      omega
  · obtain ⟨_, _, hrem, hsum, _, hu⟩ := hF
    have hlen : 1 ≤ (p.payload.drop v.hci_packet_bytes_read_).length := by
      simp
      omega
    refine ⟨p.payload.drop v.hci_packet_bytes_read_,
      List.ne_nil_of_length_pos (by omega), hu, ?_, ?_⟩
    · simpa [readCount, hst] using hrem
    · simp [readCount, hst]
      omega

/-- One step inside an inbound packet, whatever the state. -/
theorem framing_step (v0 v : VendorInterface) (u : List Byte) (p : Packet)
    (rest : List Byte) (hF : Framing v0 v u p rest) (hp : p.inbound) (k : Nat) :
    1 ≤ (readChunk k (readCount v) u).length ∧
    ∃ v1, (OnDataReady v (.bytes (readChunk k (readCount v) u)) = .next v1 [] ∧
        Framing v0 v1 (u.drop (readChunk k (readCount v) u).length) p rest) ∨
      (OnDataReady v (.bytes (readChunk k (readCount v) u)) = .next v1 [p.completed v0] ∧
        v1.hci_parser_state_ = .HCI_IDLE ∧
        v1.firmware_configured_ = v0.firmware_configured_ ∧
        v1.packet_read_cb_ = v0.packet_read_cb_ ∧
        v1.internal_command_cb = v0.internal_command_cb ∧
        u.drop (readChunk k (readCount v) u).length = rest) := by
  cases hst : v.hci_parser_state_
  · obtain ⟨h1, v1, h2, h3⟩ := framing_idle v0 v u p rest hst hF hp k
    rw [h1]
    exact ⟨by simp, v1, Or.inl ⟨h2, h3⟩⟩
  · obtain ⟨h1, v1, h2, h3⟩ := framing_preamble v0 v u p rest hst hF hp k
    exact ⟨h1, v1, Or.inl ⟨h2, h3⟩⟩
  · exact framing_payload v0 v u p rest hst hF hp k

/-- Unfolding `run` at a step that goes on. -/
theorem run_succ (n : Nat) (c : List Nat) (u : List Byte) (v v1 : VendorInterface)
    (out : List Completed) (hu : u ≠ [])
    (h : OnDataReady v (.bytes (readChunk (c.headD 1) (readCount v) u)) = .next v1 out) :
    run (n + 1) c u v =
      { run n c.tail (u.drop (readChunk (c.headD 1) (readCount v) u).length) v1 with
        dispatched := out ++
          (run n c.tail (u.drop (readChunk (c.headD 1) (readCount v) u).length) v1).dispatched } := by
  simp only [run, if_neg hu, h]

/-- On an exhausted stream no step is made. -/
theorem run_nil (n : Nat) (c : List Nat) (v : VendorInterface) :
    run n c [] v = { vi := v, dispatched := [], unread := [], aborted := none } := by
  cases n <;> simp [run]

/-- The bytes of a sequence of packets, packet by packet. -/
theorem encodeAll_cons (p : Packet) (q : List Packet) :
    encodeAll (p :: q) = p.encode ++ encodeAll q := by
  simp [encodeAll]

/-- Any number of steps, under any chunking, on the bytes of inbound packets: no `CHECK`
fails, the packets dispatched are the first `k` packets, in order, and the bytes of the
packets after the one being read are all still unread; once the stream is exhausted, all
packets have been dispatched and the framer is idle. -/
theorem run_inbound (v0 : VendorInterface) :
    ∀ (n : Nat) (c : List Nat) (v : VendorInterface) (u : List Byte) (p : Packet)
      (q : List Packet),
      Framing v0 v u p (encodeAll q) → (∀ x ∈ p :: q, x.inbound) →
      (run n c u v).aborted = none ∧
      ∃ k, k ≤ q.length + 1 ∧
        (run n c u v).dispatched = ((p :: q).take k).map (Packet.completed v0) ∧
        (∃ x, (run n c u v).unread = x ++ encodeAll ((p :: q).drop (k + 1)) ∧
          (x = [] ∨ readCount (run n c u v).vi ≤ x.length)) ∧
        (u.length ≤ n → k = q.length + 1 ∧ (run n c u v).unread = [] ∧
          (run n c u v).vi.hci_parser_state_ = .HCI_IDLE) := by
  intro n
  induction n with
  | zero =>
    intro c v u p q hF hall
    obtain ⟨x, hx, hu, _, hcnt⟩ :=
      framing_unread v0 v u p _ hF (hall p (List.mem_cons_self _ _))
    refine ⟨rfl, 0, by omega, rfl, ⟨x, by simpa [run] using hu, Or.inr hcnt⟩, ?_⟩
    intro hlen
    have : u = [] := List.length_eq_zero.mp (by omega)
    rw [this] at hu
    exact absurd (List.append_eq_nil.mp hu.symm).1 hx
  | succ n ih =>
    intro c v u p q hF hall
    have hp := hall p (List.mem_cons_self _ _)
    obtain ⟨x, hx, hu, _, _⟩ := framing_unread v0 v u p _ hF hp
    have hune : u ≠ [] := by
      rw [hu]
      simp [hx]
    obtain ⟨hd1, v1, hstep | hstep⟩ := framing_step v0 v u p _ hF hp (c.headD 1)
    · obtain ⟨hs, hF1⟩ := hstep
      rw [run_succ n c u v v1 [] hune hs]
      obtain ⟨ha, k, hk, hdisp, hunread, hfin⟩ := ih c.tail v1 _ p q hF1 hall
      refine ⟨ha, k, hk, by simpa using hdisp, hunread, ?_⟩
      intro hlen
      exact hfin (by rw [List.length_drop]; omega)
    · obtain ⟨hs, hidle, hf1, hf2, hf3, hrest⟩ := hstep
      rw [run_succ n c u v v1 [p.completed v0] hune hs, hrest]
      cases q with
      | nil =>
        have hnil : encodeAll [] = [] := rfl
        rw [hnil, run_nil]
        refine ⟨rfl, 1, by simp, by simp, ⟨[], by simp [encodeAll], Or.inl rfl⟩, ?_⟩
        intro _
        exact ⟨by simp, rfl, hidle⟩
      | cons p1 q1 =>
        have hF1 : Framing v0 v1 (encodeAll (p1 :: q1)) p1 (encodeAll q1) := by
          simp only [Framing, hidle, hf1, hf2, hf3, true_and]
          exact encodeAll_cons p1 q1
        have hall1 : ∀ x ∈ p1 :: q1, x.inbound := fun x hx1 => hall x (List.mem_cons_of_mem _ hx1)
        obtain ⟨ha, k, hk, hdisp, hunread, hfin⟩ := ih c.tail v1 _ p1 q1 hF1 hall1
        refine ⟨ha, k + 1, by simp at hk ⊢; omega, ?_, ?_, ?_⟩
        · simp only [hdisp]
          simp
        · simpa using hunread
        · intro hlen
          have hlen1 : (encodeAll (p1 :: q1)).length ≤ n := by
            have := congrArg List.length hrest
            rw [List.length_drop] at this
            omega
          obtain ⟨hk1, hu1, hi1⟩ := hfin hlen1
          exact ⟨by simp at hk1 ⊢; omega, hu1, hi1⟩

/-- An idle framer in front of a sequence of packets is at the start of the first. -/
theorem framing_start (v : VendorInterface) (p : Packet) (q : List Packet)
    (hidle : v.hci_parser_state_ = .HCI_IDLE) :
    Framing v v (encodeAll (p :: q)) p (encodeAll q) := by
  simp only [Framing, hidle, true_and]
  exact encodeAll_cons p q

/-- The bytes of a single packet. -/
theorem encodeAll_single (p : Packet) : encodeAll [p] = p.encode := by
  simp [encodeAll]

/-- C1, as the claim states it, fails. The Command packet `01 03 0C 01 AA` is valid (type octet
1, preamble of 3 bytes, length field 1, one payload byte); fed one byte at a time its type
octet is rejected by the packet-type `CHECK` and nothing is dispatched. The Event packet
`04 0E 00` is valid with an empty payload; after its third and last byte nothing has been
dispatched and the framer is in `HCI_PAYLOAD`, not idle. -/
theorem command_packet_rejected :
    commandAA.valid ∧
    commandAA.encode = [0x01, 0x03, 0x0C, 0x01, 0xAA] ∧
    (feed [] commandAA.encode (opened 3 true)).dispatched = [] ∧
    (feed [] commandAA.encode (opened 3 true)).aborted = some Fatal.invalid_packet_type ∧
    eventEmpty.valid ∧
    eventEmpty.encode = [0x04, 0x0E, 0x00] ∧
    (feed [] eventEmpty.encode (opened 3 true)).dispatched = [] ∧
    (feed [] eventEmpty.encode (opened 3 true)).unread = [] ∧
    (feed [] eventEmpty.encode (opened 3 true)).vi.hci_parser_state_ = .HCI_PAYLOAD :=
  ⟨by decide, by decide, by decide, by decide, by decide, by decide, by decide, by decide,
   by decide⟩

/-- C1, amended: for every packet of type ACLData, SCOData or Event made of the type octet, a
preamble of the size of the type and a payload of at least one byte whose length is the value
of the length field of the preamble, feeding its bytes from `HCI_IDLE` under any chunking
(each read returns at least 1 and at most the requested number of bytes) dispatches exactly
one packet: its type is that of the packet, its bytes are the preamble followed by the
payload (so the bytes after the preamble are the payload sent), all bytes are read, no
`CHECK` fails and the framer is back in `HCI_IDLE`. -/
theorem single_packet_framed (c : List Nat) (v : VendorInterface) (p : Packet)
    (hidle : v.hci_parser_state_ = .HCI_IDLE) (hp : p.inbound) :
    (feed c p.encode v).dispatched = [p.completed v] ∧
    (p.completed v).type = p.type.val ∧
    (p.completed v).packet = p.preamble ++ p.payload ∧
    (p.completed v).packet.drop (preamble_size_for_type.getD p.type.val 0) = p.payload ∧
    (feed c p.encode v).vi.hci_parser_state_ = .HCI_IDLE ∧
    (feed c p.encode v).unread = [] ∧
    (feed c p.encode v).aborted = none := by
  have hF := framing_start v p [] hidle
  rw [encodeAll_single] at hF
  obtain ⟨ha, k, _, hdisp, _, hfin⟩ :=
    run_inbound v (2 * p.encode.length + 1) c v p.encode p [] hF
      (fun x hx => by rw [List.mem_singleton.mp hx]; exact hp)
  obtain ⟨hk, hu, hi⟩ := hfin (by omega)
  rw [hk] at hdisp
  refine ⟨by simpa [feed] using hdisp, rfl, rfl, ?_, hi, hu, ha⟩
  rw [← hp.1.2.1]
  simp [Packet.completed]

/-- Witness of `single_packet_framed`: the Event packet `04 0E 02 AA BB` delivered one byte at a
time dispatches exactly one Event packet with payload `AA BB`; nothing is dispatched by the
first 4 steps, the packet is dispatched by the 5th. -/
theorem single_packet_framed_witness :
    (feed [] [0x04, 0x0E, 0x02, 0xAA, 0xBB] (opened 3 true)).dispatched
      = [{ type := HCI_PACKET_TYPE_EVENT, packet := [0x0E, 0x02, 0xAA, 0xBB], calls := [] }] ∧
    (feed [] [0x04, 0x0E, 0x02, 0xAA, 0xBB] (opened 3 true)).vi.hci_parser_state_ = .HCI_IDLE ∧
    (run 4 [] [0x04, 0x0E, 0x02, 0xAA, 0xBB] (opened 3 true)).dispatched = [] ∧
    (run 5 [] [0x04, 0x0E, 0x02, 0xAA, 0xBB] (opened 3 true)).dispatched.length = 1 :=
  have h := single_packet_framed [] (opened 3 true) eventAABB rfl (by decide)
  ⟨h.1, h.2.2.2.2.1, by decide, by decide⟩

/-- C10, amended: for every stream that is the concatenation of packets `p1 .. pn`, each of type
ACLData, SCOData or Event with a well-formed preamble and a payload of at least one byte,
feeding it from `HCI_IDLE` under any chunking dispatches exactly `p1 .. pn`, in this order
(none reordered, merged, duplicated or dropped), reads all bytes and ends idle; and after any
number `n` of steps the packets dispatched are the first `k` packets, the unread bytes are
the rest `x` of the packet being read followed by all bytes of the packets after it, and the
next read asks for no more than the `x.length` bytes left of the packet being read: no byte of
a packet is consumed before the packet before it is dispatched. -/
theorem packets_in_order (c : List Nat) (v : VendorInterface) (ps : List Packet)
    (hidle : v.hci_parser_state_ = .HCI_IDLE) (hall : ∀ p ∈ ps, p.inbound) :
    (feed c (encodeAll ps) v).dispatched = ps.map (Packet.completed v) ∧
    (feed c (encodeAll ps) v).unread = [] ∧
    (feed c (encodeAll ps) v).aborted = none ∧
    (feed c (encodeAll ps) v).vi.hci_parser_state_ = .HCI_IDLE ∧
    (∀ n, (run n c (encodeAll ps) v).aborted = none ∧
      ∃ k, k ≤ ps.length ∧
        (run n c (encodeAll ps) v).dispatched = (ps.take k).map (Packet.completed v) ∧
        ∃ x, (run n c (encodeAll ps) v).unread = x ++ encodeAll (ps.drop (k + 1)) ∧
          (x = [] ∨ readCount (run n c (encodeAll ps) v).vi ≤ x.length)) := by
  cases ps with
  | nil =>
    have hnil : encodeAll [] = [] := rfl
    have hfeed : feed c [] v = { vi := v, dispatched := [], unread := [], aborted := none } :=
      run_nil _ c v
    rw [hnil, hfeed]
    refine ⟨rfl, rfl, rfl, hidle, fun n => ?_⟩
    rw [run_nil]
    exact ⟨rfl, 0, le_refl _, rfl, [], rfl, Or.inl rfl⟩
  | cons p q =>
    have hF := framing_start v p q hidle
    refine ⟨?_, ?_, ?_, ?_, ?_⟩
    all_goals
      try obtain ⟨ha, k, _, hdisp, _, hfin⟩ :=
        run_inbound v (2 * (encodeAll (p :: q)).length + 1) c v _ p q hF hall
      try obtain ⟨hk, hu, hi⟩ := hfin (by omega)
    · rw [hk] at hdisp
      simpa [feed] using hdisp
    · exact hu
    · exact ha
    · exact hi
    · intro n
      obtain ⟨ha, k, hk, hdisp, hx, _⟩ := run_inbound v n c v _ p q hF hall
      exact ⟨ha, k, by simpa using hk, hdisp, hx⟩

/-- Witness of `packets_in_order`: an Event packet and an ACL packet, read in chunks of 3 and
9 bytes and then single bytes, are dispatched in order. -/
theorem packets_in_order_witness :
    (feed [3, 9] (encodeAll [eventAABB, aclPacket55]) (opened 3 true)).dispatched
      = [eventAABB, aclPacket55].map (Packet.completed (opened 3 true)) ∧
    encodeAll [eventAABB, aclPacket55]
      = [0x04, 0x0E, 0x02, 0xAA, 0xBB, 0x02, 0x01, 0x00, 0x01, 0x00, 0x55] ∧
    [eventAABB, aclPacket55].map (Packet.completed (opened 3 true))
      = [{ type := HCI_PACKET_TYPE_EVENT, packet := [0x0E, 0x02, 0xAA, 0xBB], calls := [] },
         { type := HCI_PACKET_TYPE_ACL_DATA, packet := [0x01, 0x00, 0x01, 0x00, 0x55],
           calls := [] }] :=
  have h := packets_in_order [3, 9] (opened 3 true) [eventAABB, aclPacket55] rfl (by decide)
  ⟨h.1, by decide, by decide⟩

/-- C10, as the claim states it, fails. The stream of the valid packets Command `01 03 0C 01 AA`
and Event `04 0E 02 AA BB` dispatches nothing: the first type octet fails the packet-type
`CHECK`. The stream of the valid packets Event `04 0E 02 AA BB` and Event `04 0E 00` (empty
payload) dispatches one packet, not two: when the stream is exhausted the second is still
awaited in `HCI_PAYLOAD`. -/
theorem valid_packets_not_all_dispatched :
    commandAA.valid ∧ eventAABB.valid ∧ eventEmpty.valid ∧
    (feed [] (encodeAll [commandAA, eventAABB]) (opened 3 true)).dispatched = [] ∧
    (feed [] (encodeAll [commandAA, eventAABB]) (opened 3 true)).aborted
      = some Fatal.invalid_packet_type ∧
    (feed [] (encodeAll [eventAABB, eventEmpty]) (opened 3 true)).dispatched
      = [eventAABB.completed (opened 3 true)] ∧
    (feed [] (encodeAll [eventAABB, eventEmpty]) (opened 3 true)).unread = [] ∧
    (feed [] (encodeAll [eventAABB, eventEmpty]) (opened 3 true)).vi.hci_parser_state_
      = .HCI_PAYLOAD :=
  ⟨by decide, by decide, by decide, by decide, by decide, by decide, by decide, by decide⟩

/-- Writing a byte and then the following bytes is writing them all at once. -/
theorem writeAt_cons (buf : List Byte) (off : Nat) (b : Byte) (d : List Byte) :
    writeAt (writeAt buf off [b]) (off + 1) d = writeAt buf off (b :: d) := by
  unfold writeAt
  by_cases h : off ≤ buf.length
  · have h1 : (buf.take off ++ [b]).length = off + 1 := by simp [h]
    have e1 : (buf.take off ++ [b] ++ buf.drop (off + [b].length)).take (off + 1)
        = buf.take off ++ [b] := List.take_left' h1
    have e2 : (buf.take off ++ [b] ++ buf.drop (off + [b].length)).drop (off + 1 + d.length)
        = buf.drop (off + (b :: d).length) := by
      rw [List.drop_append_eq_append_drop, h1]
      rw [List.drop_of_length_le (by rw [h1]; omega), List.nil_append, List.drop_drop]
      congr 1
      simp
      omega
    rw [e1, e2]
    simp
  · have hlt : buf.length < off := by omega
    have e0 : buf.take off = buf := List.take_of_length_le (by omega)
    have e3 : buf.drop (off + [b].length) = [] := List.drop_of_length_le (by simp; omega)
    have e4 : buf.drop (off + (b :: d).length) = [] := List.drop_of_length_le (by simp; omega)
    rw [e0, e3, e4, List.append_nil]
    rw [List.take_of_length_le (by simp; omega), List.drop_of_length_le (by simp; omega)]
    simp

/-- A read of several bytes inside a phase does what reading its first byte and then the
others does. -/
theorem step_split (v : VendorInterface) (b : Byte) (d : List Byte)
    (hst : v.hci_parser_state_ ≠ .HCI_IDLE) (hd : d ≠ [])
    (hle : (b :: d).length ≤ v.hci_packet_bytes_remaining_)
    (hin : v.hci_packet_bytes_read_ + v.hci_packet_bytes_remaining_ < 2 ^ 64) :
    ∃ v1, OnDataReady v (.bytes [b]) = .next v1 [] ∧
      v1.hci_parser_state_ = v.hci_parser_state_ ∧
      v1.hci_packet_bytes_remaining_ = v.hci_packet_bytes_remaining_ - 1 ∧
      v1.hci_packet_bytes_read_ + v1.hci_packet_bytes_remaining_ < 2 ^ 64 ∧
      OnDataReady v1 (.bytes d) = OnDataReady v (.bytes (b :: d)) ∧
      ∃ v2 out, OnDataReady v (.bytes (b :: d)) = .next v2 out := by
  have hdl : 1 ≤ d.length := List.length_pos.mpr hd
  simp only [List.length_cons] at hle
  cases hs : v.hci_parser_state_ with
  | HCI_IDLE => exact absurd hs hst
  | HCI_TYPE_READY =>
    have h1 := preamble_step_more v [b] hs (by simp) (by simp; omega) hin
    refine ⟨_, h1, hs, rfl, by simp; omega, ?_, ?_⟩
    · by_cases hlast : d.length + 1 = v.hci_packet_bytes_remaining_
      · rw [preamble_step_last _ d, preamble_step_last v (b :: d) hs (by simp) (by simp; omega)
          hin]
        · simp [writeAt_cons]
        · exact hs
        · exact hdl
        · simp; omega
        · simp; omega
      · rw [preamble_step_more _ d, preamble_step_more v (b :: d) hs (by simp) (by simp; omega)
          hin]
        · simp [writeAt_cons]
          omega
        · exact hs
        · exact hdl
        · simp; omega
        · simp; omega
    · by_cases hlast : d.length + 1 = v.hci_packet_bytes_remaining_
      · exact ⟨_, _, preamble_step_last v (b :: d) hs (by simp) (by simp; omega) hin⟩
      · exact ⟨_, _, preamble_step_more v (b :: d) hs (by simp) (by simp; omega) hin⟩
  | HCI_PAYLOAD =>
    have h1 := payload_step_more v [b] hs (by simp; omega) hin
    refine ⟨_, h1, hs, rfl, by simp; omega, ?_, ?_⟩
    · by_cases hlast : d.length + 1 = v.hci_packet_bytes_remaining_
      · rw [payload_step_last _ d, payload_step_last v (b :: d) hs (by simp; omega) hin]
        · simp [writeAt_cons, ← Nat.add_assoc, deliver]
          omega
        · exact hs
        · simp; omega
        · simp; omega
      · rw [payload_step_more _ d, payload_step_more v (b :: d) hs (by simp; omega) hin]
        · simp [writeAt_cons, ← Nat.add_assoc]
          omega
        · exact hs
        · simp; omega
        · simp; omega
    · by_cases hlast : d.length + 1 = v.hci_packet_bytes_remaining_
      · exact ⟨_, _, payload_step_last v (b :: d) hs (by simp; omega) hin⟩
      · exact ⟨_, _, payload_step_more v (b :: d) hs (by simp; omega) hin⟩

/-- No preamble is longer than 4 bytes. -/
theorem preamble_size_le (t : Nat) : preamble_size_for_type.getD t 0 ≤ 4 := by
  rcases t with _ | _ | _ | _ | _ | t <;> simp [preamble_size_for_type]

/-- Outside `HCI_IDLE` the read asks for `hci_packet_bytes_remaining_` bytes. -/
theorem readCount_of_ne_idle (v : VendorInterface) (h : v.hci_parser_state_ ≠ .HCI_IDLE) :
    readCount v = v.hci_packet_bytes_remaining_ := by
  cases hs : v.hci_parser_state_ with
  | HCI_IDLE => exact absurd hs h
  | HCI_TYPE_READY => simp [readCount, hs]
  | HCI_PAYLOAD => simp [readCount, hs]

/-- A step whose read returns between 1 and the requested number of bytes keeps the counters
in range. -/
theorem step_counters (v v1 : VendorInterface) (d : List Byte) (out : List Completed)
    (hin : CountersInRange v) (hd : d ≠ []) (hle : d.length ≤ readCount v)
    (h : OnDataReady v (.bytes d) = .next v1 out) : CountersInRange v1 := by
  have hdl : 1 ≤ d.length := List.length_pos.mpr hd
  cases hs : v.hci_parser_state_ with
  | HCI_IDLE =>
    have hl : d.length = 1 := by
      have : readCount v = 1 := by simp [readCount, hs]
      omega
    obtain ⟨b, rfl⟩ := List.length_eq_one.mp hl
    by_cases hb : 2 ≤ b.val ∧ b.val ≤ 4
    · rw [idle_step v b hs hb] at h
      injection h with h1 _
      rw [← h1]
      right
      have := preamble_size_le b.val
      simp only [Nat.zero_add]
      omega
    · simp [OnDataReady, hs, ReadResult.bytes_read, ReadResult.data, hb] at h
  | HCI_TYPE_READY =>
    have hne : v.hci_parser_state_ ≠ .HCI_IDLE := by simp [hs]
    rw [readCount_of_ne_idle v hne] at hle
    have hr : v.hci_packet_bytes_read_ + v.hci_packet_bytes_remaining_ < 2 ^ 64 :=
      hin.resolve_left hne
    by_cases hlast : d.length = v.hci_packet_bytes_remaining_
    · rw [preamble_step_last v d hs hdl hlast hr] at h
      injection h with h1 _
      rw [← h1]
      right
      have := HciGetPacketLengthForType_le v.hci_packet_type_
        (writeAt v.hci_packet_ v.hci_packet_bytes_read_ d)
      simp only [Nat.zero_add]
      omega
    · rw [preamble_step_more v d hs hdl (by omega) hr] at h
      injection h with h1 _
      rw [← h1]
      right
      simp only
      omega
  | HCI_PAYLOAD =>
    have hne : v.hci_parser_state_ ≠ .HCI_IDLE := by simp [hs]
    rw [readCount_of_ne_idle v hne] at hle
    have hr : v.hci_packet_bytes_read_ + v.hci_packet_bytes_remaining_ < 2 ^ 64 :=
      hin.resolve_left hne
    by_cases hlast : d.length = v.hci_packet_bytes_remaining_
    · rw [payload_step_last v d hs hlast hr] at h
      injection h with h1 _
      rw [← h1]
      left
      rfl
    · rw [payload_step_more v d hs (by omega) hr] at h
      injection h with h1 _
      rw [← h1]
      right
      simp only
      omega

/-- A zero-length read that does not end the process leaves the framer idle. -/
theorem zero_read_idle (v v0 : VendorInterface) (out : List Completed)
    (hc : readCount v = 0) (h : OnDataReady v (.bytes []) = .next v0 out) :
    v0.hci_parser_state_ = .HCI_IDLE := by
  cases hs : v.hci_parser_state_ with
  | HCI_IDLE => simp [readCount, hs] at hc
  | HCI_TYPE_READY => simp [OnDataReady, hs, ReadResult.bytes_read] at h
  | HCI_PAYLOAD =>
    have hrem : v.hci_packet_bytes_remaining_ = 0 := by simpa [readCount, hs] using hc
    have hz : sizeSub 0 0 = 0 := by decide
    simp only [OnDataReady, hs, ReadResult.bytes_read, List.length_nil, Nat.zero_mod, hrem, hz,
      if_true] at h
    injection h with h1 _
    rw [← h1]

/-- Reading a chunk in one step does what the byte-at-a-time reference does on it. -/
theorem bytewise_chunk :
    ∀ (d : List Byte) (v : VendorInterface) (rest : List Byte),
      d ≠ [] → d.length ≤ readCount v → CountersInRange v →
      bytewise (d ++ rest) v =
        (match OnDataReady v (.bytes d) with
          | .abort f => { vi := v, dispatched := [], unread := rest, aborted := some f }
          | .next v1 out =>
            { bytewise rest v1 with dispatched := out ++ (bytewise rest v1).dispatched }) := by
  intro d
  induction d with
  | nil => intro v rest h; exact absurd rfl h
  | cons b d ih =>
    intro v rest _ hle hin
    have hc : readCount v ≠ 0 := by
      simp only [List.length_cons] at hle
      omega
    cases d with
    | nil =>
      simp only [List.singleton_append, bytewise, pendingStep, if_neg hc]
      cases OnDataReady v (.bytes [b]) <;> simp
    | cons b2 d2 =>
      have hne : v.hci_parser_state_ ≠ .HCI_IDLE := by
        intro hs
        simp [readCount, hs] at hle
      rw [readCount_of_ne_idle v hne] at hle
      obtain ⟨v1, h1, hs1, hr1, hin1, heq, v2, out, h2⟩ :=
        step_split v b (b2 :: d2) hne (by simp) hle (hin.resolve_left hne)
      have hne1 : v1.hci_parser_state_ ≠ .HCI_IDLE := by rw [hs1]; exact hne
      have hih := ih v1 rest (by simp) (by
        rw [readCount_of_ne_idle v1 hne1, hr1]
        simp only [List.length_cons] at hle ⊢
        omega) (Or.inr hin1)
      rw [heq, h2] at hih
      rw [h2]
      simp only [List.cons_append, bytewise, pendingStep, if_neg hc, h1] at hih ⊢
      rw [hih]
      simp

/-- A list is its first chunk followed by what the chunk leaves. -/
theorem take_append_drop_length (l : List Byte) (m : Nat) :
    l.take m ++ l.drop (l.take m).length = l := by
  rw [List.length_take]
  by_cases h : m ≤ l.length
  · rw [Nat.min_eq_left h, List.take_append_drop]
  · rw [Nat.min_eq_right (by omega), List.take_of_length_le (by omega), List.drop_length,
      List.append_nil]

/-- With enough steps allowed, feeding a stream under any chunking gives what the
byte-at-a-time reference gives. -/
theorem run_eq_bytewise :
    ∀ (n : Nat) (c : List Nat) (stream : List Byte) (v : VendorInterface),
      CountersInRange v →
      2 * stream.length + (if readCount v = 0 then 1 else 0) ≤ n →
      run n c stream v = bytewise stream v := by
  intro n
  induction n with
  | zero =>
    intro c stream v _ hn
    have : stream = [] := List.length_eq_zero.mp (by omega)
    subst this
    simp [run, bytewise]
  | succ n ih =>
    intro c stream v hin hn
    cases stream with
    | nil => simp [run, bytewise]
    | cons b bs =>
      by_cases hc : readCount v = 0
      · have hd : readChunk (c.headD 1) (readCount v) (b :: bs) = [] := by
          simp [readChunk, hc]
        simp only [run, hd, List.length_nil, List.drop_zero, bytewise, pendingStep, if_pos hc]
        simp only [if_pos hc, List.length_cons] at hn
        cases hz : OnDataReady v (.bytes []) with
        | abort f => simp
        | next v0 out0 =>
          have hidle := zero_read_idle v v0 out0 hc hz
          have hc0 : readCount v0 ≠ 0 := by simp [readCount, hidle]
          have hih := ih c.tail (b :: bs) v0 (Or.inl hidle) (by
            simp only [if_neg hc0, List.length_cons]
            omega)
          simp only [List.cons_ne_nil, if_false]
          rw [hih]
          simp only [bytewise, pendingStep, if_neg hc0]
          cases OnDataReady v0 (.bytes [b]) <;> simp
      · have hd1 : 1 ≤ (readChunk (c.headD 1) (readCount v) (b :: bs)).length := by
          simp [readChunk]
          omega
        have hd2 : (readChunk (c.headD 1) (readCount v) (b :: bs)).length ≤ readCount v := by
          simp [readChunk]
        have hsplit : b :: bs = readChunk (c.headD 1) (readCount v) (b :: bs) ++
            (b :: bs).drop (readChunk (c.headD 1) (readCount v) (b :: bs)).length :=
          (take_append_drop_length (b :: bs) _).symm
        have hB := bytewise_chunk (readChunk (c.headD 1) (readCount v) (b :: bs)) v
          ((b :: bs).drop (readChunk (c.headD 1) (readCount v) (b :: bs)).length)
          (List.ne_nil_of_length_pos (by omega)) hd2 hin
        rw [← hsplit] at hB
        rw [hB]
        simp only [run, List.cons_ne_nil, if_false]
        cases hs : OnDataReady v (.bytes (readChunk (c.headD 1) (readCount v) (b :: bs))) with
        | abort f => simp
        | next v1 out =>
          have hin1 := step_counters v v1 _ out hin (List.ne_nil_of_length_pos (by omega)) hd2 hs
          have hih := ih c.tail
            ((b :: bs).drop (readChunk (c.headD 1) (readCount v) (b :: bs)).length) v1 hin1 (by
              simp only [if_neg hc, List.length_cons, List.length_drop] at hn ⊢
              split <;> omega)
          simp only [hih]

/-- The reference run reads the whole stream unless a `CHECK` fails. -/
theorem bytewise_complete :
    ∀ (stream : List Byte) (v : VendorInterface),
      (bytewise stream v).aborted = none → (bytewise stream v).unread = [] := by
  intro stream
  induction stream with
  | nil => intro v _; rfl
  | cons b bs ih =>
    intro v h
    simp only [bytewise] at h ⊢
    cases h0 : pendingStep v with
    | abort f => simp [h0] at h
    | next v0 out0 =>
      simp only [h0] at h ⊢
      cases h1 : OnDataReady v0 (.bytes [b]) with
      | abort f => simp [h1] at h
      | next v1 out1 =>
        simp only [h1] at h ⊢
        exact ih v1 h

/-- C2: chunking independence. From every framer state whose counters are in range (all idle
states, and every state reached from one), for every byte stream and any two ways `c1`, `c2`
the transport may split it into reads (each read returns at least 1 byte and at most the
requested number; a read that asks for 0 bytes returns 0), running `OnDataReady` until the
stream is exhausted gives the same outcome: the same packets dispatched, in the same order,
with the same bytes and the same hand-overs, the same final framer state, the same failed
`CHECK` if any. In particular every chunking gives what one byte per read gives, and the run
does read the whole stream unless a `CHECK` fails. -/
theorem chunking_independent (c1 c2 : List Nat) (stream : List Byte) (v : VendorInterface)
    (hin : CountersInRange v) :
    feed c1 stream v = feed c2 stream v ∧
    feed c1 stream v = feed [] stream v ∧
    ((feed c1 stream v).aborted = none → (feed c1 stream v).unread = []) := by
  have h1 := run_eq_bytewise (2 * stream.length + 1) c1 stream v hin (by split <;> omega)
  have h2 := run_eq_bytewise (2 * stream.length + 1) c2 stream v hin (by split <;> omega)
  have h3 := run_eq_bytewise (2 * stream.length + 1) [] stream v hin (by split <;> omega)
  simp only [feed, h1, h2, h3, true_and]
  exact bytewise_complete stream v

/-- Witness of `chunking_independent`: an Event packet followed by the first three preamble
bytes of an ACL packet, nine bytes. With the chunks `1, 2, 7, 1, 3` the reads return 1, 2, 2
(7 is cut to the 2 bytes asked for), 1 and 3 bytes: five steps read the stream. With the
chunks `3, 1, 1, 2, 1, 2` they return 1, 1, 1, 2, 1, 2 and 1 bytes: seven steps. One byte at a
time, five steps leave four bytes unread. The three runs end alike, with the Event packet
dispatched. -/
theorem chunking_independent_witness :
    CountersInRange (opened 3 true) ∧
    feed [1, 2, 7, 1, 3] [0x04, 0x0E, 0x02, 0xAA, 0xBB, 0x02, 0x01, 0x00, 0x01] (opened 3 true)
      = feed [3, 1, 1, 2, 1, 2] [0x04, 0x0E, 0x02, 0xAA, 0xBB, 0x02, 0x01, 0x00, 0x01]
          (opened 3 true) ∧
    feed [1, 2, 7, 1, 3] [0x04, 0x0E, 0x02, 0xAA, 0xBB, 0x02, 0x01, 0x00, 0x01] (opened 3 true)
      = feed [] [0x04, 0x0E, 0x02, 0xAA, 0xBB, 0x02, 0x01, 0x00, 0x01] (opened 3 true) ∧
    (run 5 [1, 2, 7, 1, 3] [0x04, 0x0E, 0x02, 0xAA, 0xBB, 0x02, 0x01, 0x00, 0x01]
      (opened 3 true)).unread = [] ∧
    (run 5 [] [0x04, 0x0E, 0x02, 0xAA, 0xBB, 0x02, 0x01, 0x00, 0x01]
      (opened 3 true)).unread = [0x02, 0x01, 0x00, 0x01] ∧
    (run 7 [3, 1, 1, 2, 1, 2] [0x04, 0x0E, 0x02, 0xAA, 0xBB, 0x02, 0x01, 0x00, 0x01]
      (opened 3 true)).unread = [] ∧
    (run 6 [3, 1, 1, 2, 1, 2] [0x04, 0x0E, 0x02, 0xAA, 0xBB, 0x02, 0x01, 0x00, 0x01]
      (opened 3 true)).unread = [0x01] ∧
    (feed [1, 2, 7, 1, 3] [0x04, 0x0E, 0x02, 0xAA, 0xBB, 0x02, 0x01, 0x00, 0x01]
      (opened 3 true)).dispatched.map (fun c => (c.type, c.packet))
      = [(0x04, [0x0E, 0x02, 0xAA, 0xBB])] :=
  ⟨by decide,
   (chunking_independent [1, 2, 7, 1, 3] [3, 1, 1, 2, 1, 2]
      [0x04, 0x0E, 0x02, 0xAA, 0xBB, 0x02, 0x01, 0x00, 0x01] (opened 3 true) (by decide)).1,
   (chunking_independent [1, 2, 7, 1, 3] [3, 1, 1, 2, 1, 2]
      [0x04, 0x0E, 0x02, 0xAA, 0xBB, 0x02, 0x01, 0x00, 0x01] (opened 3 true) (by decide)).2.1,
   by decide, by decide, by decide, by decide, by decide⟩

/-- C12, as the claim states it, fails: on a controller that holds nothing, `Open` with the
entry symbol missing returns false and leaves `lib_handle_` non-null; with a non-zero `init`
status, and with a descriptor count of 2, it returns false and leaves both `lib_handle_` and
`lib_interface_` non-null. No failure path of `Open` calls `dlclose`. -/
theorem Open_failure_keeps_library :
    Open unopened true
        { dlopen_found := true, dlsym_found := false, local_address := true, init_status := 0,
          fd_count := 1, fd0 := 3 }
      = .returned false { unopened with packet_read_cb_ := true, lib_handle_ := true } [] ∧
    Open unopened true
        { dlopen_found := true, dlsym_found := true, local_address := true, init_status := 1,
          fd_count := 1, fd0 := 3 }
      = .returned false
          { unopened with packet_read_cb_ := true, lib_handle_ := true, lib_interface_ := true }
          [.init] ∧
    Open unopened true
        { dlopen_found := true, dlsym_found := true, local_address := true, init_status := 0,
          fd_count := 2, fd0 := 3 }
      = .returned false
          { unopened with packet_read_cb_ := true, lib_handle_ := true, lib_interface_ := true }
          [.init, .BT_VND_OP_POWER_CTRL .BT_VND_PWR_OFF, .BT_VND_OP_POWER_CTRL .BT_VND_PWR_ON,
           .BT_VND_OP_USERIAL_OPEN] := by
  decide

/-- C12, amended: in each of the four failure cases (library missing, entry symbol missing,
non-zero `init` status, descriptor count different from 1) `Open` returns false, does not
register the readiness callback (`fd_watcher_` is as before), does not start firmware
configuration (no `BT_VND_OP_FW_CFG`), does not assign the transport descriptor, and leaves
the queue and the framer as they were; the controller holds no library handle when the
library is missing, and keeps the handle obtained from `dlopen` (and the interface pointer,
once resolved) in the three other cases. -/
theorem Open_failure (v : VendorInterface) (cb : Bool) (env : OpenEnv) (h : env.fails) :
    ∃ v1 calls, Open v cb env = .returned false v1 calls ∧
      v1.fd_watcher_ = v.fd_watcher_ ∧
      DriverCall.BT_VND_OP_FW_CFG ∉ calls ∧
      v1.uart_fd_ = v.uart_fd_ ∧
      v1.firmware_configured_ = false ∧
      v1.packet_read_cb_ = cb ∧
      v1.lib_handle_ = env.dlopen_found ∧
      v1.lib_interface_ = (if env.dlopen_found then env.dlsym_found else v.lib_interface_) ∧
      (env.dlsym_found = false → calls = []) ∧
      v1.queued_data_ = v.queued_data_ ∧
      v1.hci_parser_state_ = v.hci_parser_state_ := by
  rcases h with h | ⟨h1, h2⟩ | ⟨h1, h2, h3, h4⟩ | ⟨h1, h2, h3, h4, h5⟩
  · have hO : Open v cb env = .returned false
        { v with firmware_configured_ := false, packet_read_cb_ := cb, lib_handle_ := false }
        [] := by
      simp [Open, h]
    exact ⟨_, _, hO, by simp [h]⟩
  · have hO : Open v cb env = .returned false
        { v with firmware_configured_ := false, packet_read_cb_ := cb, lib_handle_ := true,
                 lib_interface_ := false } [] := by
      simp [Open, h1, h2]
    exact ⟨_, _, hO, by simp [h1, h2]⟩
  · have hO : Open v cb env = .returned false
        { v with firmware_configured_ := false, packet_read_cb_ := cb, lib_handle_ := true,
                 lib_interface_ := true } [.init] := by
      simp [Open, h1, h2, h3, h4]
    exact ⟨_, _, hO, by simp [h1, h2]⟩
  · have hO : Open v cb env = .returned false
        { v with firmware_configured_ := false, packet_read_cb_ := cb, lib_handle_ := true,
                 lib_interface_ := true }
        [.init, .BT_VND_OP_POWER_CTRL .BT_VND_PWR_OFF, .BT_VND_OP_POWER_CTRL .BT_VND_PWR_ON,
         .BT_VND_OP_USERIAL_OPEN] := by
      simp [Open, h1, h2, h3, h4, h5]
    exact ⟨_, _, hO, by simp [h1, h2]⟩

/-- Witness of `Open_failure`: the driver returns no descriptor (count 0); `Open` returns
false, nothing is watched, the library handle is kept. -/
theorem Open_failure_witness :
    ({ dlopen_found := true, dlsym_found := true, local_address := true, init_status := 0,
       fd_count := 0, fd0 := 0 } : OpenEnv).fails ∧
    ∃ v1 calls, Open unopened true
        { dlopen_found := true, dlsym_found := true, local_address := true, init_status := 0,
          fd_count := 0, fd0 := 0 } = .returned false v1 calls ∧
      v1.fd_watcher_ = none ∧ v1.lib_handle_ = true := by
  obtain ⟨v1, calls, h1, h2, _, _, _, _, h3, _⟩ := Open_failure unopened true
    { dlopen_found := true, dlsym_found := true, local_address := true, init_status := 0,
      fd_count := 0, fd0 := 0 } (by decide)
  exact ⟨by decide, v1, calls, h1, h2, h3⟩

/-- C13: when the leading type octet is not accepted (any octet other than 2, 3, 4: every octet
outside the four packet types, and Command as well), the step in `HCI_IDLE` asks for 1 byte,
reads exactly the type octet and fails the packet-type `CHECK`: whatever the chunking, the
bytes after the type octet are all unread and no packet is dispatched. -/
theorem idle_invalid_type_one_byte (c : List Nat) (v : VendorInterface) (b : Byte)
    (rest : List Byte) (hidle : v.hci_parser_state_ = .HCI_IDLE)
    (hb : ¬ (b.val = HCI_PACKET_TYPE_ACL_DATA ∨ b.val = HCI_PACKET_TYPE_SCO_DATA ∨
      b.val = HCI_PACKET_TYPE_EVENT)) :
    readCount v = 1 ∧
    readChunk (c.headD 1) (readCount v) (b :: rest) = [b] ∧
    OnDataReady v (.bytes [b]) = .abort .invalid_packet_type ∧
    feed c (b :: rest) v
      = { vi := v, dispatched := [], unread := rest,
          aborted := some Fatal.invalid_packet_type } := by
  have hcount : readCount v = 1 := by simp [readCount, hidle]
  have hmin : min (max (c.headD 1) 1) 1 = 1 := by omega
  have hchunk : readChunk (c.headD 1) (readCount v) (b :: rest) = [b] := by
    simp [readChunk, hcount, hmin]
  have hrange : ¬ (2 ≤ b.val ∧ b.val ≤ 4) := by
    simp only [HCI_PACKET_TYPE_ACL_DATA, HCI_PACKET_TYPE_SCO_DATA, HCI_PACKET_TYPE_EVENT] at hb
    omega
  have hstep : OnDataReady v (.bytes [b]) = .abort .invalid_packet_type := by
    simp [OnDataReady, hidle, ReadResult.bytes_read, ReadResult.data, hrange]
  refine ⟨hcount, hchunk, hstep, ?_⟩
  simp only [feed, run, List.cons_ne_nil, if_false, hchunk, hstep]
  simp

/-- Witness of `idle_invalid_type_one_byte`: the stream `07 0E 01 AA` with a transport ready
to hand over 5 bytes; only `07` is read. -/
theorem idle_invalid_type_one_byte_witness :
    (opened 3 true).hci_parser_state_ = .HCI_IDLE ∧
    feed [5] [0x07, 0x0E, 0x01, 0xAA] (opened 3 true)
      = { vi := opened 3 true, dispatched := [], unread := [0x0E, 0x01, 0xAA],
          aborted := some Fatal.invalid_packet_type } :=
  ⟨rfl, (idle_invalid_type_one_byte [5] (opened 3 true) 0x07 [0x0E, 0x01, 0xAA] rfl
    (by decide)).2.2.2⟩

/-- `Send` does not change the firmware-configured flag. -/
theorem Send_flag (v : VendorInterface) (u : Uart) (d : List Byte) :
    (Send v u d).2.1.firmware_configured_ = v.firmware_configured_ := by
  unfold Send
  split
  · rfl
  · split <;> rfl

/-- After a `Send` with firmware configured the queue is empty. -/
theorem Send_configured_queue (v : VendorInterface) (u : Uart) (d : List Byte)
    (hcfg : v.firmware_configured_ = true) : (Send v u d).2.1.queued_data_ = [] := by
  by_cases hq : v.queued_data_.length = 0
  · simp [Send, hcfg, hq, List.length_eq_zero.mp hq]
  · simp [Send, hcfg, hq, resize]

/-- With firmware configured and an empty queue, `Send` is `SendPrivate` and leaves the controller as it is. -/
theorem Send_direct (v : VendorInterface) (u : Uart) (d : List Byte)
    (hcfg : v.firmware_configured_ = true) (hq : v.queued_data_ = []) :
    Send v u d = ((SendPrivate v u d).1, v, (SendPrivate v u d).2) := by
  simp [Send, hcfg, hq]

/-- After `OnFirmwareConfigured` firmware is configured and the queue is empty. -/
theorem OnFirmwareConfigured_queue (v : VendorInterface) (u : Uart) (result : Nat) :
    (OnFirmwareConfigured v u result).1.firmware_configured_ = true ∧
    (OnFirmwareConfigured v u result).1.queued_data_ = [] := by
  unfold OnFirmwareConfigured
  exact ⟨by rw [Send_flag], Send_configured_queue _ _ _ rfl⟩

/-- `OnDataReady` touches neither the queue nor the firmware-configured flag. -/
theorem OnDataReady_queue (v v1 : VendorInterface) (r : ReadResult) (out : List Completed)
    (h : OnDataReady v r = .next v1 out) :
    v1.queued_data_ = v.queued_data_ ∧ v1.firmware_configured_ = v.firmware_configured_ := by
  cases hs : v.hci_parser_state_ <;> simp only [OnDataReady, hs] at h <;> split_ifs at h <;>
    (injection h with h1 _; rw [← h1]; exact ⟨rfl, rfl⟩)

/-- `Close` keeps the queue and clears the firmware-configured flag. -/
theorem Close_queue (v : VendorInterface) :
    (Close v).1.queued_data_ = v.queued_data_ ∧ (Close v).1.firmware_configured_ = false := by
  cases hi : v.lib_interface_ <;> cases hh : v.lib_handle_ <;> simp [Close, hi, hh]

/-- Every operation keeps: firmware configured implies queue empty. -/
theorem perform_flushed (op : Operation) (s s1 : VendorInterface × Uart)
    (hinv : s.1.firmware_configured_ = true → s.1.queued_data_ = [])
    (h : perform op s = some s1) :
    s1.1.firmware_configured_ = true → s1.1.queued_data_ = [] := by
  cases op with
  | Send d =>
    simp only [perform, Option.some.injEq] at h
    rw [← h]
    intro hc
    rw [Send_flag] at hc
    exact Send_configured_queue _ _ _ hc
  | OnFirmwareConfigured result =>
    simp only [perform, Option.some.injEq] at h
    rw [← h]
    intro _
    exact (OnFirmwareConfigured_queue _ _ _).2
  | OnDataReady r =>
    simp only [perform] at h
    cases hs : OnDataReady s.1 r with
    | abort f => simp [hs] at h
    | next v out =>
      simp only [hs, Option.some.injEq] at h
      rw [← h]
      obtain ⟨hq, hf⟩ := OnDataReady_queue _ _ _ _ hs
      intro hc
      rw [hq]
      exact hinv (by rw [← hf]; exact hc)
  | Close =>
    simp only [perform, Option.some.injEq] at h
    rw [← h]
    intro hc
    rw [(Close_queue s.1).2] at hc
    cases hc

/-- Every sequence of operations keeps: firmware configured implies queue empty. -/
theorem performAll_flushed :
    ∀ (ops : List Operation) (s0 s : VendorInterface × Uart),
      (s0.1.firmware_configured_ = true → s0.1.queued_data_ = []) →
      performAll ops s0 = some s →
      (s.1.firmware_configured_ = true → s.1.queued_data_ = []) := by
  intro ops
  induction ops with
  | nil =>
    intro s0 s h0 h
    simp only [performAll, Option.some.injEq] at h
    rw [← h]
    exact h0
  | cons op ops ih =>
    intro s0 s h0 h
    simp only [performAll] at h
    cases hp : perform op s0 with
    | none => simp [hp] at h
    | some s1 =>
      simp only [hp] at h
      exact ih s1 s (perform_flushed op s0 s1 h0 hp) h

/-- C14: the command-queue invariant. In every state `s` reached from an opened controller with
an empty queue by any sequence of `Send`, `OnFirmwareConfigured`, `OnDataReady` and `Close`:
firmware configured implies the queue is empty; a `Send` with firmware configured leaves the
controller, hence the queue, as it is (it never appends); an operation other than
`OnFirmwareConfigured` made while firmware is not configured leaves the transport untouched
(no byte, queued or not, is written); after every `Send` that leaves firmware configured and
after every `OnFirmwareConfigured` the queue is empty. -/
theorem queue_invariant (fd : Int) (cb : Bool) (u0 : Uart) (ops : List Operation)
    (s : VendorInterface × Uart) (hreach : performAll ops (opened fd cb, u0) = some s) :
    (s.1.firmware_configured_ = true → s.1.queued_data_ = []) ∧
    (∀ d, s.1.firmware_configured_ = true →
      (Send s.1 s.2 d).2.1 = s.1 ∧ (Send s.1 s.2 d).2.1.queued_data_ = []) ∧
    (∀ op s1, perform op s = some s1 → s.1.firmware_configured_ = false →
      (∀ result, op ≠ .OnFirmwareConfigured result) → s1.2 = s.2) ∧
    (∀ d s1, perform (.Send d) s = some s1 → s1.1.firmware_configured_ = true →
      s1.1.queued_data_ = []) ∧
    (∀ result s1, perform (.OnFirmwareConfigured result) s = some s1 →
      s1.1.firmware_configured_ = true ∧ s1.1.queued_data_ = []) := by
  have hinv := performAll_flushed ops (opened fd cb, u0) s (fun h => by cases h) hreach
  refine ⟨hinv, ?_, ?_, ?_, ?_⟩
  · intro d hc
    rw [Send_direct s.1 s.2 d hc (hinv hc)]
    exact ⟨rfl, hinv hc⟩
  · intro op s1 h hc hne
    cases op with
    | Send d =>
      simp only [perform, Option.some.injEq] at h
      rw [← h, Send_queues s.1 s.2 d hc]
    | OnFirmwareConfigured result => exact absurd rfl (hne result)
    | OnDataReady r =>
      simp only [perform] at h
      cases hs : OnDataReady s.1 r with
      | abort f => simp [hs] at h
      | next v out =>
        simp only [hs, Option.some.injEq] at h
        rw [← h]
    | Close =>
      simp only [perform, Option.some.injEq] at h
      rw [← h]
  · intro d s1 h
    exact perform_flushed (.Send d) s s1 hinv h
  · intro result s1 h
    simp only [perform, Option.some.injEq] at h
    rw [← h]
    exact OnFirmwareConfigured_queue _ _ _

/-- Witness of `queue_invariant`: two bytes are queued, a type octet is framed, firmware gets
configured (the queue is flushed), one byte is sent directly; the queue is empty at the
end. -/
theorem queue_invariant_witness :
    performAll [.Send [0x01, 0x02], .OnDataReady (.bytes [0x04]), .OnFirmwareConfigured 0,
        .Send [0x03]] (opened 3 true, { script := [], wire := [] })
      = some ({ opened 3 true with
                firmware_configured_ := true, hci_parser_state_ := .HCI_TYPE_READY,
                hci_packet_type_ := 4, hci_packet_ := [0, 0, 0, 0],
                hci_packet_bytes_remaining_ := 2 },
              { script := [], wire := [0x01, 0x02, 0x03] }) ∧
    ({ opened 3 true with
       firmware_configured_ := true, hci_parser_state_ := .HCI_TYPE_READY,
       hci_packet_type_ := 4, hci_packet_ := [0, 0, 0, 0],
       hci_packet_bytes_remaining_ := 2 } : VendorInterface).queued_data_ = [] :=
  ⟨by decide,
   (queue_invariant 3 true { script := [], wire := [] }
      [.Send [0x01, 0x02], .OnDataReady (.bytes [0x04]), .OnFirmwareConfigured 0, .Send [0x03]]
      ({ opened 3 true with
         firmware_configured_ := true, hci_parser_state_ := .HCI_TYPE_READY,
         hci_packet_type_ := 4, hci_packet_ := [0, 0, 0, 0],
         hci_packet_bytes_remaining_ := 2 },
       { script := [], wire := [0x01, 0x02, 0x03] }) (by decide)).1 rfl⟩

/-- Indexing inside the leading part of a buffer. -/
theorem getD_take_of_lt (l : List Byte) (i n : Nat) (h : i < n) :
    (l.take n).getD i 0 = l.getD i 0 := by
  simp [List.getD_eq_getElem?_getD, List.getElem?_take_of_lt h]

/-- The length decoder reads only below the end of the length field. -/
theorem HciGetPacketLengthForType_take (type n : Nat) (packet : List Byte)
    (h : packet_length_offset_for_type.getD type 0 + lengthFieldWidth type ≤ n) :
    HciGetPacketLengthForType type (packet.take n) = HciGetPacketLengthForType type packet := by
  unfold lengthFieldWidth at h
  simp only [HciGetPacketLengthForType]
  split_ifs at h ⊢
  · rw [getD_take_of_lt _ _ _ (by omega), getD_take_of_lt _ _ _ (by omega)]
  · rw [getD_take_of_lt _ _ _ (by omega)]

/-- Buffers that agree up to the end of the length field announce the same length. -/
theorem HciGetPacketLengthForType_congr (type n : Nat) (p q : List Byte)
    (h : packet_length_offset_for_type.getD type 0 + lengthFieldWidth type ≤ n)
    (hpq : p.take n = q.take n) :
    HciGetPacketLengthForType type p = HciGetPacketLengthForType type q := by
  rw [← HciGetPacketLengthForType_take type n p h, hpq, HciGetPacketLengthForType_take type n q h]

/-- For the four packet types: the tables are indexed in range, the length field lies inside the preamble, the preamble fits in the maximal preamble size. -/
theorem layout_constants (type : Nat)
    (h : type = HCI_PACKET_TYPE_COMMAND ∨ type = HCI_PACKET_TYPE_ACL_DATA ∨
      type = HCI_PACKET_TYPE_SCO_DATA ∨ type = HCI_PACKET_TYPE_EVENT) :
    type < preamble_size_for_type.length ∧
    type < packet_length_offset_for_type.length ∧
    packet_length_offset_for_type.getD type 0 + lengthFieldWidth type
      ≤ preamble_size_for_type.getD type 0 ∧
    preamble_size_for_type.getD type 0 ≤ HCI_PREAMBLE_SIZE_MAX := by
  rcases h with h | h | h | h <;> subst h <;>
    simp [preamble_size_for_type, packet_length_offset_for_type, lengthFieldWidth]

/-- C15: with the wire-layout constants (Command: preamble 3, offset 2; ACLData: preamble 4,
16-bit length at offset 2; SCOData: preamble 3, offset 2; Event: preamble 2, offset 1; maximum
preamble size 4) and the tables indexed by the type octet 1..4, for each of the four types
the tables are indexed in range and the length field lies wholly inside the preamble of the
type (offset + field width <= preamble size <= 4). So on any buffer holding a whole preamble
the indices read by `HciGetPacketLengthForType` are inside the buffer and the result depends
on the preamble bytes only; and in the `HCI_TYPE_READY` step that completes the preamble
the indices read are below the number of bytes received, inside the buffer. -/
theorem length_field_inside_preamble (type : Nat)
    (h : type = HCI_PACKET_TYPE_COMMAND ∨ type = HCI_PACKET_TYPE_ACL_DATA ∨
      type = HCI_PACKET_TYPE_SCO_DATA ∨ type = HCI_PACKET_TYPE_EVENT) :
    (preamble_size_for_type.getD HCI_PACKET_TYPE_COMMAND 0 = 3 ∧
      packet_length_offset_for_type.getD HCI_PACKET_TYPE_COMMAND 0 = 2 ∧
      preamble_size_for_type.getD HCI_PACKET_TYPE_ACL_DATA 0 = 4 ∧
      packet_length_offset_for_type.getD HCI_PACKET_TYPE_ACL_DATA 0 = 2 ∧
      preamble_size_for_type.getD HCI_PACKET_TYPE_SCO_DATA 0 = 3 ∧
      packet_length_offset_for_type.getD HCI_PACKET_TYPE_SCO_DATA 0 = 2 ∧
      preamble_size_for_type.getD HCI_PACKET_TYPE_EVENT 0 = 2 ∧
      packet_length_offset_for_type.getD HCI_PACKET_TYPE_EVENT 0 = 1 ∧
      HCI_PREAMBLE_SIZE_MAX = 4) ∧
    type < preamble_size_for_type.length ∧
    type < packet_length_offset_for_type.length ∧
    packet_length_offset_for_type.getD type 0 + lengthFieldWidth type
      ≤ preamble_size_for_type.getD type 0 ∧
    preamble_size_for_type.getD type 0 ≤ HCI_PREAMBLE_SIZE_MAX ∧
    (∀ packet : List Byte, preamble_size_for_type.getD type 0 ≤ packet.length →
      packet_length_offset_for_type.getD type 0 + lengthFieldWidth type ≤ packet.length ∧
      HciGetPacketLengthForType type packet
        = HciGetPacketLengthForType type
            (packet.take (preamble_size_for_type.getD type 0))) ∧
    (∀ (v : VendorInterface) (d : List Byte),
      v.hci_parser_state_ = .HCI_TYPE_READY → v.hci_packet_type_ = type →
      v.hci_packet_.length = HCI_PREAMBLE_SIZE_MAX →
      v.hci_packet_bytes_read_ + d.length = preamble_size_for_type.getD type 0 →
      packet_length_offset_for_type.getD type 0 + lengthFieldWidth type
        ≤ v.hci_packet_bytes_read_ + d.length ∧
      v.hci_packet_bytes_read_ + d.length
        ≤ (writeAt v.hci_packet_ v.hci_packet_bytes_read_ d).length) := by
  obtain ⟨h1, h2, h3, h4⟩ := layout_constants type h
  refine ⟨by decide, h1, h2, h3, h4, ?_, ?_⟩
  · intro packet hp
    exact ⟨by omega, (HciGetPacketLengthForType_take type _ packet h3).symm⟩
  · intro v d _ _ hlen hsum
    refine ⟨by omega, ?_⟩
    rw [length_writeAt _ _ _ (by omega)]
    omega

/-- Witness of `length_field_inside_preamble`: for ACLData the length field ends exactly at
the end of the 4-byte preamble. -/
theorem length_field_inside_preamble_witness :
    (HCI_PACKET_TYPE_ACL_DATA = HCI_PACKET_TYPE_COMMAND ∨
      HCI_PACKET_TYPE_ACL_DATA = HCI_PACKET_TYPE_ACL_DATA ∨
      HCI_PACKET_TYPE_ACL_DATA = HCI_PACKET_TYPE_SCO_DATA ∨
      HCI_PACKET_TYPE_ACL_DATA = HCI_PACKET_TYPE_EVENT) ∧
    packet_length_offset_for_type.getD HCI_PACKET_TYPE_ACL_DATA 0
        + lengthFieldWidth HCI_PACKET_TYPE_ACL_DATA
      ≤ preamble_size_for_type.getD HCI_PACKET_TYPE_ACL_DATA 0 ∧
    packet_length_offset_for_type.getD HCI_PACKET_TYPE_ACL_DATA 0
        + lengthFieldWidth HCI_PACKET_TYPE_ACL_DATA = 4 :=
  ⟨by decide,
   (length_field_inside_preamble HCI_PACKET_TYPE_ACL_DATA (by decide)).2.2.2.1,
   by decide⟩

/-- `resize` keeps the leading bytes it does not cut. -/
theorem take_resize (buf : List Byte) (k n : Nat) (hk : k ≤ n) (hb : k ≤ buf.length) :
    (resize buf n).take k = buf.take k := by
  unfold resize
  rw [List.take_append_of_le_length (by rw [List.length_take]; omega), List.take_take,
    Nat.min_eq_left hk]

/-- A write leaves the bytes before its offset as they are. -/
theorem take_writeAt_below (buf : List Byte) (k off : Nat) (d : List Byte) (hk : k ≤ off)
    (hb : off ≤ buf.length) : (writeAt buf off d).take k = buf.take k := by
  unfold writeAt
  rw [List.append_assoc, List.take_append_of_le_length (by rw [List.length_take]; omega),
    List.take_take, Nat.min_eq_left hk]

/-- For an accepted type the length field lies inside the preamble, which has 2 to 4 bytes. -/
theorem accepted_type_layout (type : Nat)
    (h : HCI_PACKET_TYPE_ACL_DATA ≤ type ∧ type ≤ HCI_PACKET_TYPE_EVENT) :
    packet_length_offset_for_type.getD type 0 + lengthFieldWidth type
      ≤ preamble_size_for_type.getD type 0 ∧
    2 ≤ preamble_size_for_type.getD type 0 ∧
    preamble_size_for_type.getD type 0 ≤ 4 := by
  simp only [HCI_PACKET_TYPE_ACL_DATA, HCI_PACKET_TYPE_EVENT] at h
  have h3 : type = 2 ∨ type = 3 ∨ type = 4 := by omega
  rcases h3 with h | h | h <;> subst h <;>
    simp [preamble_size_for_type, packet_length_offset_for_type, lengthFieldWidth]

/-- C16: the framer invariant `FramerInv` is preserved by every `OnDataReady` step whose read
returns between 1 and the requested number of bytes. In `HCI_TYPE_READY` it says: bytes read
plus bytes remaining is the preamble size of the type, at least one byte remains, the buffer
has the maximal preamble size; in `HCI_PAYLOAD`: bytes read plus bytes remaining is the
payload length declared by the preamble in the buffer, and the buffer has the preamble size
plus that length. The preamble bytes are kept by the resize at the end of the preamble and by
every payload step. Hence every read writes inside the buffer: write offset plus requested
count is at most the buffer size. -/
theorem framer_invariant (v : VendorInterface) (d : List Byte) (hinv : FramerInv v)
    (h1 : 1 ≤ d.length) (h2 : d.length ≤ readCount v) :
    (v.hci_parser_state_ ≠ .HCI_IDLE →
      writeOffset v + readCount v ≤ v.hci_packet_.length ∧
      writeOffset v + d.length ≤ v.hci_packet_.length) ∧
    (∀ v1 out, OnDataReady v (.bytes d) = .next v1 out →
      FramerInv v1 ∧
      (v.hci_parser_state_ ≠ .HCI_IDLE → v1.hci_packet_type_ = v.hci_packet_type_) ∧
      (v.hci_parser_state_ = .HCI_TYPE_READY → v1.hci_parser_state_ = .HCI_PAYLOAD →
        v1.hci_packet_.take (preamble_size_for_type.getD v.hci_packet_type_ 0)
          = (writeAt v.hci_packet_ v.hci_packet_bytes_read_ d).take
              (preamble_size_for_type.getD v.hci_packet_type_ 0)) ∧
      (v.hci_parser_state_ = .HCI_PAYLOAD →
        v1.hci_packet_.take (preamble_size_for_type.getD v.hci_packet_type_ 0)
          = v.hci_packet_.take (preamble_size_for_type.getD v.hci_packet_type_ 0))) := by
  cases hs : v.hci_parser_state_ with
  | HCI_IDLE =>
    refine ⟨fun h => absurd rfl h, ?_⟩
    intro v1 out hstep
    have hl : d.length = 1 := by
      have : readCount v = 1 := by simp [readCount, hs]
      omega
    obtain ⟨b, rfl⟩ := List.length_eq_one.mp hl
    by_cases hb : 2 ≤ b.val ∧ b.val ≤ 4
    · rw [idle_step v b hs hb] at hstep
      injection hstep with e1 _
      rw [← e1]
      have hlay := accepted_type_layout b.val hb
      refine ⟨?_, ?_, ?_, ?_⟩
      · simp only [FramerInv, length_resize, Nat.zero_add, HCI_PREAMBLE_SIZE_MAX,
          HCI_ACL_PREAMBLE_SIZE, HCI_PACKET_TYPE_ACL_DATA, HCI_PACKET_TYPE_EVENT]
        exact ⟨hb, trivial, by omega, trivial⟩
      · intro h
        exact absurd rfl h
      · intro h
        cases h
      · intro h
        cases h
    · simp [OnDataReady, hs, ReadResult.bytes_read, ReadResult.data, hb] at hstep
  | HCI_TYPE_READY =>
    unfold FramerInv at hinv
    rw [hs] at hinv
    obtain ⟨htype, hsum, hrem, hlen⟩ := hinv
    have hlay := accepted_type_layout _ htype
    have hlen4 : v.hci_packet_.length = 4 := by simpa using hlen
    have hcount : readCount v = v.hci_packet_bytes_remaining_ := by simp [readCount, hs]
    have hoff : writeOffset v = v.hci_packet_bytes_read_ := by simp [writeOffset, hs]
    rw [hcount] at h2
    refine ⟨fun _ => by rw [hoff, hcount]; omega, ?_⟩
    intro v1 out hstep
    have hwl : (writeAt v.hci_packet_ v.hci_packet_bytes_read_ d).length = 4 := by
      rw [length_writeAt _ _ _ (by omega), hlen4]
    by_cases hlast : d.length = v.hci_packet_bytes_remaining_
    · rw [preamble_step_last v d hs h1 hlast (by omega)] at hstep
      injection hstep with e1 _
      rw [← e1]
      have htk := take_resize (writeAt v.hci_packet_ v.hci_packet_bytes_read_ d)
        (preamble_size_for_type.getD v.hci_packet_type_ 0)
        (preamble_size_for_type.getD v.hci_packet_type_ 0 +
          HciGetPacketLengthForType v.hci_packet_type_
            (writeAt v.hci_packet_ v.hci_packet_bytes_read_ d)) (by omega) (by omega)
      have hL := HciGetPacketLengthForType_congr v.hci_packet_type_ _ _ _ hlay.1 htk
      refine ⟨?_, ?_, ?_, ?_⟩
      · simp only [FramerInv, length_resize, Nat.zero_add]
        exact ⟨htype, hL.symm, by rw [hL]⟩
      · intro _
        rfl
      · intro _ _
        exact htk
      · intro h
        cases h
    · rw [preamble_step_more v d hs h1 (by omega) (by omega)] at hstep
      injection hstep with e1 _
      rw [← e1]
      refine ⟨?_, ?_, ?_, ?_⟩
      · simp only [FramerInv, hs, hwl, HCI_PREAMBLE_SIZE_MAX, HCI_ACL_PREAMBLE_SIZE]
        exact ⟨htype, by omega, by omega, trivial⟩
      · intro _
        rfl
      · intro _ h
        simp [hs] at h
      · intro h
        cases h
  | HCI_PAYLOAD =>
    unfold FramerInv at hinv
    rw [hs] at hinv
    obtain ⟨htype, hsum, hlen⟩ := hinv
    have hlay := accepted_type_layout _ htype
    have hLle := HciGetPacketLengthForType_le v.hci_packet_type_ v.hci_packet_
    have hcount : readCount v = v.hci_packet_bytes_remaining_ := by simp [readCount, hs]
    have hoff : writeOffset v
        = preamble_size_for_type.getD v.hci_packet_type_ 0 + v.hci_packet_bytes_read_ := by
      simp [writeOffset, hs]
    rw [hcount] at h2
    refine ⟨fun _ => by rw [hoff, hcount]; omega, ?_⟩
    intro v1 out hstep
    have hwl : (writeAt v.hci_packet_
        (preamble_size_for_type.getD v.hci_packet_type_ 0 + v.hci_packet_bytes_read_) d).length
        = v.hci_packet_.length := length_writeAt _ _ _ (by omega)
    have htk := take_writeAt_below v.hci_packet_
      (preamble_size_for_type.getD v.hci_packet_type_ 0)
      (preamble_size_for_type.getD v.hci_packet_type_ 0 + v.hci_packet_bytes_read_) d
      (by omega) (by omega)
    have hL := HciGetPacketLengthForType_congr v.hci_packet_type_ _ _ _ hlay.1 htk
    by_cases hlast : d.length = v.hci_packet_bytes_remaining_
    · rw [payload_step_last v d hs hlast (by omega)] at hstep
      injection hstep with e1 _
      rw [← e1]
      refine ⟨trivial, ?_, ?_, ?_⟩
      · intro _
        rfl
      · intro h
        cases h
      · intro _
        exact htk
    · rw [payload_step_more v d hs (by omega) (by omega)] at hstep
      injection hstep with e1 _
      rw [← e1]
      refine ⟨?_, ?_, ?_, ?_⟩
      · simp only [FramerInv, hs, hwl, hL]
        exact ⟨htype, by omega, hlen⟩
      · intro _
        rfl
      · intro h
        cases h
      · intro _
        exact htk

/-- Witness of `framer_invariant`: the framer awaiting the last payload byte of an Event
packet. -/
theorem framer_invariant_witness :
    FramerInv awaitingLastByte ∧
    1 ≤ ([0xAA] : List Byte).length ∧
    ([0xAA] : List Byte).length ≤ readCount awaitingLastByte ∧
    writeOffset awaitingLastByte + readCount awaitingLastByte
      ≤ awaitingLastByte.hci_packet_.length :=
  ⟨by decide, by decide, by decide,
   ((framer_invariant awaitingLastByte [0xAA] (by decide) (by decide) (by decide)).1
      (by decide)).1⟩

/-- Whatever the transport does, `SendPrivate` returns at most the length asked for and puts on the wire exactly that many leading bytes of `data`. -/
theorem SendPrivate_wire (v : VendorInterface) (u : Uart) (data : List Byte) :
    (SendPrivate v u data).1 ≤ data.length ∧
    (SendPrivate v u data).2.wire = u.wire ++ data.take (SendPrivate v u data).1 := by
  by_cases hfd : v.uart_fd_ = INVALID_FD
  · simp [SendPrivate, hfd]
  · obtain ⟨_, h2, h3, _⟩ := SendPrivateLoop_spec data u.script u.wire 0 data.length
    simp only [Nat.zero_add, Nat.sub_zero, List.drop_zero] at h2 h3
    simp only [SendPrivate, if_neg hfd]
    exact ⟨h2, h3⟩

/-- C17: the flush path of `Send` (firmware configured, queue `Q` not empty, data `D`). The
queue is emptied however many bytes of `Q` the transport accepted; the value returned is the
count transmitted for `D` alone, at most the length of `D`; the wire receives the accepted
leading bytes of `Q` followed by the accepted leading bytes of `D` and nothing else, so the
bytes of `Q` that were not accepted are dropped and the shortfall is not reported; and any
later `Send` on the resulting controller writes leading bytes of its own data only: the
dropped bytes are not retried. -/
theorem Send_flush (v : VendorInterface) (u : Uart) (d : List Byte)
    (hcfg : v.firmware_configured_ = true) (hq : v.queued_data_ ≠ []) :
    (Send v u d).2.1 = { v with queued_data_ := [] } ∧
    (Send v u d).1
      = (SendPrivate { v with queued_data_ := [] } (SendPrivate v u v.queued_data_).2 d).1 ∧
    (Send v u d).1 ≤ d.length ∧
    (SendPrivate v u v.queued_data_).1 ≤ v.queued_data_.length ∧
    (Send v u d).2.2.wire
      = u.wire ++ v.queued_data_.take (SendPrivate v u v.queued_data_).1
          ++ d.take (Send v u d).1 ∧
    (∀ (u1 : Uart) (d1 : List Byte),
      (Send (Send v u d).2.1 u1 d1).2.1 = (Send v u d).2.1 ∧
      (Send (Send v u d).2.1 u1 d1).2.2.wire
        = u1.wire ++ d1.take (Send (Send v u d).2.1 u1 d1).1) := by
  have hlen : v.queued_data_.length ≠ 0 := fun h => hq (List.length_eq_zero.mp h)
  have hS : Send v u d
      = ((SendPrivate { v with queued_data_ := [] } (SendPrivate v u v.queued_data_).2 d).1,
         { v with queued_data_ := [] },
         (SendPrivate { v with queued_data_ := [] } (SendPrivate v u v.queued_data_).2 d).2) := by
    simp [Send, hcfg, hlen, resize]
  have w1 := SendPrivate_wire v u v.queued_data_
  have w2 := SendPrivate_wire { v with queued_data_ := [] } (SendPrivate v u v.queued_data_).2 d
  rw [hS]
  refine ⟨rfl, rfl, w2.1, w1.1, ?_, ?_⟩
  · simp only
    rw [w2.2, w1.2]
  · intro u1 d1
    have hd := Send_direct { v with queued_data_ := [] } u1 d1 hcfg rfl
    simp only
    rw [hd]
    exact ⟨rfl, (SendPrivate_wire _ u1 d1).2⟩

/-- Witness of `Send_flush`: queue `01 02 03`, the transport accepts one byte then fails, then
accepts `04`: the wire holds `01 04`, `Send` returns 1, the queue is empty. -/
theorem Send_flush_witness :
    (Send { opened 3 true with firmware_configured_ := true, queued_data_ := [0x01, 0x02, 0x03] }
        { script := [.accept 1, .error], wire := [] } [0x04]).2.2.wire = [0x01, 0x04] ∧
    (Send { opened 3 true with firmware_configured_ := true, queued_data_ := [0x01, 0x02, 0x03] }
        { script := [.accept 1, .error], wire := [] } [0x04]).1 = 1 ∧
    (Send { opened 3 true with firmware_configured_ := true, queued_data_ := [0x01, 0x02, 0x03] }
        { script := [.accept 1, .error], wire := [] } [0x04]).2.1.queued_data_ = [] := by
  have h := Send_flush
    { opened 3 true with firmware_configured_ := true, queued_data_ := [0x01, 0x02, 0x03] }
    { script := [.accept 1, .error], wire := [] } [0x04] rfl (by decide)
  refine ⟨?_, by decide, ?_⟩
  · rw [h.2.2.2.2.1]
    decide
  · rw [h.1]

end Bluetooth
